import Mathlib

/- Verification development for the PyFastAdmin task execution and scheduling
core.  Python strings are embedded as lists of Unicode code points
(`List Nat`); Python ints as `Int`; fallible operations as `Option`/`Except`;
stateful operations as explicit state passing.  Every definition mirrors a
function of the repository source (app/services and app/workers), except where
a doc comment says otherwise. -/

set_option maxRecDepth 4000

/-- Embed a Lean string literal as a list of Unicode code points, the
representation used for Python `str` values throughout this file. -/
def s2c (s : String) : List Nat := s.toList.map Char.toNat

/-- Characters treated as whitespace by Python `str.strip()` and `int()`
(ASCII fragment). -/
def isPyWs (c : Nat) : Bool := c = 32 || c = 9 || c = 10 || c = 11 || c = 12 || c = 13

/-- Python `str.strip()` with no arguments (ASCII whitespace fragment). -/
def pyStrip (s : List Nat) : List Nat :=
  (((s.dropWhile isPyWs).reverse).dropWhile isPyWs).reverse

/-- Python `dict.get`: first (and only, for dict-built lists) binding of a key
in an association-list rendering of a Python dict. -/
def pyDictGet {β : Type} (m : List (List Nat × β)) (k : List Nat) : Option β :=
  match m with
  | [] => none
  | (k0, v0) :: rest => if k0 = k then some v0 else pyDictGet rest k

/-- Python `dict.__setitem__`: replace the value of an existing key in place,
else append the new binding at the end (insertion order semantics). -/
def pyDictSet {β : Type} (m : List (List Nat × β)) (k : List Nat) (v : β) :
    List (List Nat × β) :=
  match m with
  | [] => [(k, v)]
  | (k0, v0) :: rest => if k0 = k then (k0, v) :: rest else (k0, v0) :: pyDictSet rest k v

/-- Python truthiness fallback `value or default` for an optional string:
`None` and the empty string are falsy. -/
def orDefault (v : Option (List Nat)) (d : List Nat) : List Nat :=
  match v with
  | none => d
  | some s => if s = [] then d else s

/-- Python `str()` applied to an `Optional[str]`: `str(None)` is the literal
string `None`. -/
def pyStrOpt (v : Option (List Nat)) : List Nat :=
  match v with
  | none => s2c "None"
  | some s => s

/-- Decimal digit test on a code point. -/
def isDigitCode (c : Nat) : Bool := 48 ≤ c && c ≤ 57

/-- Digit accumulator for the body of a Python integer literal: decimal
digits with single underscores allowed between digit groups. -/
def digvalGo (acc : Nat) : List Nat → Option Nat
  | [] => some acc
  | c :: rest =>
    if isDigitCode c then digvalGo (acc * 10 + (c - 48)) rest
    else if c = 95 then
      match rest with
      | d :: rest2 => if isDigitCode d then digvalGo (acc * 10 + (d - 48)) rest2 else none
      | [] => none
    else none

/-- Python `int(s)` on a string (ASCII fragment): strip whitespace, optional
sign, then a non-empty digit sequence with optional single underscores
between digits.  `none` models `ValueError`. -/
def pyIntCore (s : List Nat) : Option Int :=
  match pyStrip s with
  | [] => none
  | c :: rest =>
    let signed : Bool × List Nat :=
      if c = 45 then (true, rest) else if c = 43 then (false, rest) else (false, c :: rest)
    match signed.2 with
    | [] => none
    | d :: ds =>
      if isDigitCode d then
        (digvalGo (d - 48) ds).map (fun n => if signed.1 then -(n : Int) else (n : Int))
      else none

/-- Most-significant-first decimal digits of a natural number; the fuel
argument bounds the recursion and is always instantiated at the number
itself. -/
def natDigsGo : Nat → Nat → List Nat
  | 0, _ => []
  | _ + 1, 0 => []
  | fuel + 1, n + 1 => natDigsGo fuel ((n + 1) / 10) ++ [48 + (n + 1) % 10]

/-- Decimal rendering of a natural number, as Python `str` produces it. -/
def natDigs (n : Nat) : List Nat := if n = 0 then [48] else natDigsGo n n

/-- Python `str()` of an int. -/
def intToStr (n : Int) : List Nat :=
  if n < 0 then 45 :: natDigs n.natAbs else natDigs n.toNat

/-- Numeric value of a most-significant-first digit-code list, the way the
JSON scanner and `int()` accumulate it. -/
def digsToNat (ds : List Nat) : Nat := ds.foldl (fun a c => a * 10 + (c - 48)) 0

/-- `app/config.py _to_int`: parse an optional environment string, fall back
to the default when unparsable or below the minimum. -/
def config_to_int (value : Option (List Nat)) (default : Int) (minimum : Int) : Int :=
  match pyIntCore (pyStrip (pyStrOpt value)) with
  | none => default
  | some parsed => if minimum ≤ parsed then parsed else default

mutual
/-- JSON values as Python `json` handles them, restricted to the fragment the
repository serializes: numbers are modelled as integers (no floats). -/
inductive JVal : Type where
  | null : JVal
  | bool (b : Bool) : JVal
  | num (n : Int) : JVal
  | str (s : List Nat) : JVal
  | arr (items : JArr) : JVal
  | obj (items : JObj) : JVal
  deriving DecidableEq
/-- A JSON array, as its own inductive to keep recursion structural. -/
inductive JArr : Type where
  | nil : JArr
  | cons (v : JVal) (rest : JArr) : JArr
  deriving DecidableEq
/-- A JSON object: key/value bindings in insertion order, like a Python
dict. -/
inductive JObj : Type where
  | nil : JObj
  | cons (k : List Nat) (v : JVal) (rest : JObj) : JObj
  deriving DecidableEq
end

/-- Whether a JSON object contains a binding for a key (`key in dict`). -/
def objHasKey : JObj → List Nat → Bool
  | .nil, _ => false
  | .cons k0 _ rest, k => k0 == k || objHasKey rest k

/-- Python dict `__setitem__` on the object model: overwrite in place or
append. -/
def objSet : JObj → List Nat → JVal → JObj
  | .nil, k, v => .cons k v .nil
  | .cons k0 v0 rest, k, v =>
    if k0 = k then .cons k0 v rest else .cons k0 v0 (objSet rest k v)

/-- `dict(pairs)` as the JSON decoder builds an object from scanned
key/value pairs. -/
def pairsToObj (ps : List (List Nat × JVal)) : JObj :=
  ps.foldl (fun o kv => objSet o kv.1 kv.2) .nil

/-- The key/value pairs of an object, in order. -/
def pairList : JObj → List (List Nat × JVal)
  | .nil => []
  | .cons k v rest => (k, v) :: pairList rest

/-- Concatenation of two objects (no key collision handling; used only in
proofs about fresh keys). -/
def objAppend : JObj → JObj → JObj
  | .nil, o => o
  | .cons k v rest, o => .cons k v (objAppend rest o)

/-- A code point that a Python `str` can round-trip through JSON: a Unicode
scalar value (surrogate code points are excluded from the embedding). -/
def scalarCode (c : Nat) : Bool := c < 55296 || (57344 ≤ c && c < 1114112)

/-- All code points of a string are Unicode scalar values. -/
def wfStr (s : List Nat) : Bool := s.all scalarCode

mutual
/-- Well-formedness of a JSON value for round-trip statements: strings hold
scalar code points and object keys are duplicate-free, recursively. -/
def wfV : JVal → Bool
  | .str s => wfStr s
  | .arr items => wfA items
  | .obj items => wfO items
  | _ => true
/-- Well-formedness of each array element. -/
def wfA : JArr → Bool
  | .nil => true
  | .cons v rest => wfV v && wfA rest
/-- Well-formedness of an object: keys are scalar strings, pairwise distinct,
and values are well-formed. -/
def wfO : JObj → Bool
  | .nil => true
  | .cons k v rest => wfStr k && !objHasKey rest k && wfV v && wfO rest
end

/-- Lowercase hex digit code for a value below 16, as `"%04x"` renders it. -/
def hexDig (d : Nat) : Nat := if d < 10 then 48 + d else 87 + d

/-- Four lowercase hex digit codes of a value below 65536. -/
def hex4 (n : Nat) : List Nat :=
  [hexDig (n / 4096 % 16), hexDig (n / 256 % 16), hexDig (n / 16 % 16), hexDig (n % 16)]

/-- How `json.dumps(..., ensure_ascii=True)` escapes one code point inside a
string literal: short escapes for the classic controls, `u` escapes for other
controls and all non-ASCII, surrogate pairs beyond the basic plane, and the
character itself for printable ASCII. -/
def escCode (c : Nat) : List Nat :=
  if c = 34 then [92, 34]
  else if c = 92 then [92, 92]
  else if c = 8 then [92, 98]
  else if c = 9 then [92, 116]
  else if c = 10 then [92, 110]
  else if c = 12 then [92, 102]
  else if c = 13 then [92, 114]
  else if c < 32 then 92 :: 117 :: hex4 c
  else if c ≤ 126 then [c]
  else if c < 65536 then 92 :: 117 :: hex4 c
  else 92 :: 117 :: (hex4 (55296 + (c - 65536) / 1024) ++ 92 :: 117 :: hex4 (56320 + (c - 65536) % 1024))

/-- Escape every code point of a string body. -/
def escAll (s : List Nat) : List Nat := s.foldr (fun c acc => escCode c ++ acc) []

/-- A serialized JSON string literal, quotes included. -/
def dumpStr (s : List Nat) : List Nat := 34 :: (escAll s ++ [34])

mutual
/-- `json.dumps(value, ensure_ascii=True, separators=(",", ":"))` on the
modelled fragment, emitting code points. -/
def dumpVal : JVal → List Nat
  | .null => s2c "null"
  | .bool true => s2c "true"
  | .bool false => s2c "false"
  | .num n => intToStr n
  | .str s => dumpStr s
  | .arr items => 91 :: (dumpArrItems items ++ [93])
  | .obj items => 123 :: (dumpObjItems items ++ [125])
/-- Comma-joined serialized array elements. -/
def dumpArrItems : JArr → List Nat
  | .nil => []
  | .cons v .nil => dumpVal v
  | .cons v (.cons w rest) => dumpVal v ++ 44 :: dumpArrItems (.cons w rest)
/-- Comma-joined serialized `key:value` object entries. -/
def dumpObjItems : JObj → List Nat
  | .nil => []
  | .cons k v .nil => dumpStr k ++ 58 :: dumpVal v
  | .cons k v (.cons k2 v2 rest) =>
    dumpStr k ++ 58 :: (dumpVal v ++ 44 :: dumpObjItems (.cons k2 v2 rest))
end

/-- JSON whitespace accepted by the decoder between tokens. -/
def isJsonWs (c : Nat) : Bool := c = 32 || c = 9 || c = 10 || c = 13

/-- Skip JSON whitespace. -/
def skipWs : List Nat → List Nat
  | [] => []
  | c :: r => if isJsonWs c then skipWs r else c :: r

/-- Value of one hex digit code, both cases accepted, as `int(s, 16)` does. -/
def hexVal (c : Nat) : Option Nat :=
  if 48 ≤ c && c ≤ 57 then some (c - 48)
  else if 97 ≤ c && c ≤ 102 then some (c - 87)
  else if 65 ≤ c && c ≤ 70 then some (c - 55)
  else none

/-- Scan exactly four hex digits of a `u` escape. -/
def scanHex4 : List Nat → Option (Nat × List Nat)
  | a :: b :: c :: d :: rest =>
    match hexVal a, hexVal b, hexVal c, hexVal d with
    | some x, some y, some z, some w => some (x * 4096 + y * 256 + z * 16 + w, rest)
    | _, _, _, _ => none
  | _ => none

/-- The decoder table for single-character string escapes. -/
def escDecode (e : Nat) : Option Nat :=
  if e = 34 then some 34
  else if e = 92 then some 92
  else if e = 47 then some 47
  else if e = 98 then some 8
  else if e = 102 then some 12
  else if e = 110 then some 10
  else if e = 114 then some 13
  else if e = 116 then some 9
  else none

/-- Consume an expected literal tail (for `null`, `true`, `false`). -/
def dropPre : List Nat → List Nat → Option (List Nat)
  | [], s => some s
  | _ :: _, [] => none
  | p :: ps, c :: cs => if c = p then dropPre ps cs else none

/-- Whether the character after an integer literal would extend it into a
float literal; the model rejects floats (outside the embedded fragment). -/
def floatFollows : List Nat → Bool
  | [] => false
  | c :: _ => c = 46 || c = 101 || c = 69

/-- Strip a leading minus sign, reporting whether one was present. -/
def splitSign : List Nat → Bool × List Nat
  | [] => (false, [])
  | c :: r => if c = 45 then (true, r) else (false, c :: r)

/-- Scan a JSON number per the decoder grammar: optional minus, then either a
single `0` or a nonzero-led digit run; fractional and exponent forms are
rejected as outside the integer fragment. -/
def scanNumber (s : List Nat) : Option (JVal × List Nat) :=
  let sg := splitSign s
  match sg.2 with
  | [] => none
  | c :: r =>
    if isDigitCode c then
      let digs : List Nat × List Nat :=
        if c = 48 then ([c], r)
        else ((c :: r).takeWhile isDigitCode, (c :: r).dropWhile isDigitCode)
      if floatFollows digs.2 then none
      else
        some (.num (if sg.1 then -(digsToNat digs.1 : Int) else (digsToNat digs.1 : Int)), digs.2)
    else none

mutual
/-- The JSON decoder on code points, mirroring the scanner of `json.loads`
with strict string handling; the fuel argument only bounds recursion and is
instantiated generously by `json_loads`. -/
def scanValue : Nat → List Nat → Option (JVal × List Nat)
  | 0, _ => none
  | fuel + 1, s =>
    match skipWs s with
    | [] => none
    | c :: r =>
      if c = 123 then
        match skipWs r with
        | [] => none
        | c1 :: r1 =>
          if c1 = 125 then some (.obj .nil, r1)
          else (scanObjItems fuel (c1 :: r1)).map (fun pr => (.obj (pairsToObj pr.1), pr.2))
      else if c = 91 then
        match skipWs r with
        | [] => none
        | c1 :: r1 =>
          if c1 = 93 then some (.arr .nil, r1)
          else (scanArrItems fuel (c1 :: r1)).map (fun pr => (.arr pr.1, pr.2))
      else if c = 34 then
        (scanStrRest fuel r).map (fun pr => (.str pr.1, pr.2))
      else if c = 110 then (dropPre (s2c "ull") r).map (fun rest => (.null, rest))
      else if c = 116 then (dropPre (s2c "rue") r).map (fun rest => (.bool true, rest))
      else if c = 102 then (dropPre (s2c "alse") r).map (fun rest => (.bool false, rest))
      else scanNumber (c :: r)
/-- Scan the elements of a non-empty array after the opening bracket. -/
def scanArrItems : Nat → List Nat → Option (JArr × List Nat)
  | 0, _ => none
  | fuel + 1, s =>
    match scanValue fuel s with
    | none => none
    | some (v, r) =>
      match skipWs r with
      | [] => none
      | c :: rest =>
        if c = 93 then some (.cons v .nil, rest)
        else if c = 44 then (scanArrItems fuel rest).map (fun pr => (.cons v pr.1, pr.2))
        else none
/-- Scan the entries of a non-empty object after the opening brace,
collecting raw key/value pairs as the Python decoder does before building the
dict. -/
def scanObjItems : Nat → List Nat → Option (List (List Nat × JVal) × List Nat)
  | 0, _ => none
  | fuel + 1, s =>
    match skipWs s with
    | [] => none
    | c :: r =>
      if c = 34 then
        match scanStrRest fuel r with
        | none => none
        | some (k, r1) =>
          match skipWs r1 with
          | [] => none
          | c2 :: r2 =>
            if c2 = 58 then
              match scanValue fuel r2 with
              | none => none
              | some (v, r3) =>
                match skipWs r3 with
                | [] => none
                | c3 :: rest =>
                  if c3 = 125 then some ([(k, v)], rest)
                  else if c3 = 44 then
                    (scanObjItems fuel rest).map (fun pr => ((k, v) :: pr.1, pr.2))
                  else none
            else none
      else none
/-- Scan the body of a string literal after the opening quote, decoding
escapes, combining surrogate pairs, and rejecting raw control characters. -/
def scanStrRest : Nat → List Nat → Option (List Nat × List Nat)
  | 0, _ => none
  | fuel + 1, s =>
    match s with
    | [] => none
    | c :: r =>
      if c = 34 then some ([], r)
      else if c = 92 then
        match r with
        | [] => none
        | e :: r2 =>
          if e = 117 then
            match scanHex4 r2 with
            | none => none
            | some (h, r3) =>
              if 55296 ≤ h && h ≤ 56319 then
                match r3 with
                | a :: b :: r4 =>
                  if a = 92 && b = 117 then
                    match scanHex4 r4 with
                    | none => none
                    | some (h2, r5) =>
                      if 56320 ≤ h2 && h2 ≤ 57343 then
                        (scanStrRest fuel r5).map
                          (fun pr => ((65536 + (h - 55296) * 1024 + (h2 - 56320)) :: pr.1, pr.2))
                      else (scanStrRest fuel r3).map (fun pr => (h :: pr.1, pr.2))
                  else (scanStrRest fuel r3).map (fun pr => (h :: pr.1, pr.2))
                | _ => (scanStrRest fuel r3).map (fun pr => (h :: pr.1, pr.2))
              else (scanStrRest fuel r3).map (fun pr => (h :: pr.1, pr.2))
          else
            match escDecode e with
            | some d => (scanStrRest fuel r2).map (fun pr => (d :: pr.1, pr.2))
            | none => none
      else if c < 32 then none
      else (scanStrRest fuel r).map (fun pr => (c :: pr.1, pr.2))
end

mutual
/-- Sufficient scanner fuel for re-reading a serialized value. -/
def fuelV : JVal → Nat
  | .str s => s.length + 2
  | .arr items => 1 + fuelA items
  | .obj items => 1 + fuelO items
  | _ => 1
/-- Sufficient scanner fuel for serialized array elements. -/
def fuelA : JArr → Nat
  | .nil => 0
  | .cons v rest => 1 + fuelV v + fuelA rest
/-- Sufficient scanner fuel for serialized object entries. -/
def fuelO : JObj → Nat
  | .nil => 0
  | .cons k v rest => 2 + k.length + fuelV v + fuelO rest
end

/-- `json.loads` on the modelled fragment: scan one value and require only
whitespace after it; `none` models a raised `JSONDecodeError`. -/
def json_loads (s : List Nat) : Option JVal :=
  match scanValue (2 * s.length + 2) s with
  | some (v, rest) => if skipWs rest = [] then some v else none
  | none => none

/-- `app/services/queue_service.py _json_loads`: decode a payload string,
returning the empty dict when decoding raises or yields a non-dict. -/
def json_loads_dict (s : List Nat) : JObj :=
  match json_loads s with
  | some (.obj o) => o
  | _ => .nil

/-- `app/apps/... DisplayColumn` from `task_registry.py`: a dynamic monitor
column definition. -/
structure DisplayColumn where
  key : List Nat
  label : List Nat
  deriving DecidableEq

/-- `task_registry.PeriodicTaskDefinition`; the runner callable and the
display-value provider are opaque values of the type parameters. -/
structure PTDef (R P : Type) where
  key : List Nat
  name : List Nat
  interval_seconds : Int
  runner : R
  tags : List (List Nat)
  display_columns : List DisplayColumn
  display_values_provider : Option P

/-- `task_registry.QueueConsumerDefinition`; the handler callable and the
display-value provider are opaque values of the type parameters. -/
structure QCDef (H P : Type) where
  key : List Nat
  name : List Nat
  stream : List Nat
  group : List Nat
  handler : H
  tags : List (List Nat)
  max_retries : Option Int
  dead_letter_stream : Option (List Nat)
  display_columns : List DisplayColumn
  display_values_provider : Option P

/-- `task_registry._normalize_tags`: strip entries, drop empties and
duplicates preserving first occurrence; `None` input reads as the empty
list. -/
def normalize_tags (raw_tags : Option (List (List Nat))) : List (List Nat) :=
  (raw_tags.getD []).foldl
    (fun tags item =>
      let value := pyStrip item
      if value = [] || tags.contains value then tags else tags ++ [value])
    []

/-- `task_registry._normalize_columns`: strip key and label, drop entries
with an empty key or label or a duplicate key, preserving first
occurrence. -/
def normalize_columns (raw_columns : Option (List DisplayColumn)) : List DisplayColumn :=
  ((raw_columns.getD []).foldl
    (fun (column_map : List (List Nat × DisplayColumn)) column =>
      let key := pyStrip column.key
      let label := pyStrip column.label
      if key = [] || label = [] || column_map.any (fun p => p.1 == key) then column_map
      else column_map ++ [(key, ⟨key, label⟩)])
    []).map (fun p => p.2)

/-- The distinct `ValueError` raise sites of the registry, one constructor
per message (the spec taxonomy names the last one `DuplicateKey`). -/
inductive RegError : Type where
  | periodicKeyEmpty : RegError
  | periodicNameEmpty : RegError
  | periodicIntervalNotPositive : RegError
  | duplicatePeriodic (key : List Nat) : RegError
  | consumerKeyEmpty : RegError
  | consumerNameEmpty : RegError
  | consumerStreamEmpty : RegError
  | consumerGroupEmpty : RegError
  | duplicateConsumer (key : List Nat) : RegError
  deriving DecidableEq

/-- `task_registry.register_periodic_task` in state-passing form: the
returned state is the module dict after the call, unchanged when the call
raises (every raise happens before the dict assignment). -/
def register_periodic_task {R P : Type} (reg : List (List Nat × PTDef R P))
    (key name : List Nat) (interval_seconds : Int) (runner : R)
    (tags : Option (List (List Nat))) (display_columns : Option (List DisplayColumn))
    (display_values_provider : Option P) :
    List (List Nat × PTDef R P) × Except RegError (PTDef R P) :=
  let normalized_key := pyStrip key
  let normalized_name := pyStrip name
  if normalized_key = [] then (reg, .error .periodicKeyEmpty)
  else if normalized_name = [] then (reg, .error .periodicNameEmpty)
  else if interval_seconds ≤ 0 then (reg, .error .periodicIntervalNotPositive)
  else if reg.any (fun p => p.1 == normalized_key) then
    (reg, .error (.duplicatePeriodic normalized_key))
  else
    let definition : PTDef R P :=
      { key := normalized_key, name := normalized_name,
        interval_seconds := interval_seconds, runner := runner,
        tags := normalize_tags tags, display_columns := normalize_columns display_columns,
        display_values_provider := display_values_provider }
    (pyDictSet reg normalized_key definition, .ok definition)

/-- The normalization `str(dead_letter_stream).strip() or None` applied by
`register_queue_consumer` to the dead-letter override: note that `str(None)`
is the non-empty string `None`. -/
def normDeadLetter (dead_letter_stream : Option (List Nat)) : Option (List Nat) :=
  let s := pyStrip (pyStrOpt dead_letter_stream)
  if s = [] then none else some s

/-- `task_registry.register_queue_consumer` in state-passing form. -/
def register_queue_consumer {H P : Type} (reg : List (List Nat × QCDef H P))
    (key name stream group : List Nat) (handler : H)
    (tags : Option (List (List Nat))) (max_retries : Option Int)
    (dead_letter_stream : Option (List Nat))
    (display_columns : Option (List DisplayColumn)) (display_values_provider : Option P) :
    List (List Nat × QCDef H P) × Except RegError (QCDef H P) :=
  let normalized_key := pyStrip key
  let normalized_name := pyStrip name
  let normalized_stream := pyStrip stream
  let normalized_group := pyStrip group
  if normalized_key = [] then (reg, .error .consumerKeyEmpty)
  else if normalized_name = [] then (reg, .error .consumerNameEmpty)
  else if normalized_stream = [] then (reg, .error .consumerStreamEmpty)
  else if normalized_group = [] then (reg, .error .consumerGroupEmpty)
  else if reg.any (fun p => p.1 == normalized_key) then
    (reg, .error (.duplicateConsumer normalized_key))
  else
    let definition : QCDef H P :=
      { key := normalized_key, name := normalized_name, stream := normalized_stream,
        group := normalized_group, handler := handler, tags := normalize_tags tags,
        max_retries := max_retries.map (fun m => max m 0),
        dead_letter_stream := normDeadLetter dead_letter_stream,
        display_columns := normalize_columns display_columns,
        display_values_provider := display_values_provider }
    (pyDictSet reg normalized_key definition, .ok definition)

/-- `task_registry.list_periodic_tasks`: the dict values in insertion
order. -/
def list_periodic_tasks {R P : Type} (reg : List (List Nat × PTDef R P)) : List (PTDef R P) :=
  reg.map (fun p => p.2)

/-- `task_registry.list_queue_consumers`. -/
def list_queue_consumers {H P : Type} (reg : List (List Nat × QCDef H P)) : List (QCDef H P) :=
  reg.map (fun p => p.2)

/-- `queue_service.parse_stream_message`: decode payload, retry count and
source message id from the string fields of a stream entry, with the
fail-soft defaults of the source. -/
def parse_stream_message (fields : List (List Nat × List Nat)) : JObj × Int × List Nat :=
  let payload := json_loads_dict (orDefault (pyDictGet fields (s2c "payload")) (s2c "\x7b\x7d"))
  let source_message_id := orDefault (pyDictGet fields (s2c "source_message_id")) []
  let retry_count : Int :=
    match pyIntCore (orDefault (pyDictGet fields (s2c "retry_count")) (s2c "0")) with
    | some n => max n 0
    | none => 0
  (payload, retry_count, source_message_id)

/-- The field map `queue_service.enqueue_task` appends to the stream (the
`XADD` body; stream trimming does not affect the fields). -/
def enqueue_fields (payload : JObj) (retry_count : Int) (source_message_id : List Nat) :
    List (List Nat × List Nat) :=
  [(s2c "payload", dumpVal (.obj payload)),
   (s2c "retry_count", intToStr (max retry_count 0)),
   (s2c "source_message_id", source_message_id)]

/-- `queue_service.resolve_max_retries`: consumer override, else the global
`QUEUE_MAX_RETRIES`, clamped at zero. -/
def resolve_max_retries {H P : Type} (queue_max_retries : Int) (definition : QCDef H P) : Int :=
  match definition.max_retries with
  | none => max queue_max_retries 0
  | some m => max m 0

/-- `queue_service.resolve_dead_letter_stream`: the stored override when
truthy, else `stream:dead`. -/
def resolve_dead_letter_stream {H P : Type} (definition : QCDef H P) : List Nat :=
  match definition.dead_letter_stream with
  | some s => if s = [] then definition.stream ++ s2c ":dead" else s
  | none => definition.stream ++ s2c ":dead"

/-- `periodic_service._assign_tasks`: the shard of the task list owned by one
worker; element-generic because the source never inspects the items. -/
def assignTasks {α : Type} (tasks : List α) (worker_index worker_total : Nat) : List α :=
  if worker_total ≤ 1 then tasks
  else ((tasks.enum).filter (fun p => p.1 % worker_total == worker_index)).map Prod.snd

/-- Outcome of awaiting a task runner or message handler: normal return, a
non-cancellation exception with its message, or cancellation. -/
inductive HandlerOutcome : Type where
  | ok : HandlerOutcome
  | exc (msg : List Nat) : HandlerOutcome
  | cancelled : HandlerOutcome
  deriving DecidableEq

/-- Result of one pass of the `run_periodic_worker` loop body for a single
task. -/
inductive PStep : Type where
  | skipped : PStep
  | cancelled : PStep
  | ran (next_run_at : Int) (status : List Nat) (error : List Nat) : PStep
  deriving DecidableEq

/-- The per-task body of `periodic_service.run_periodic_worker` (lines
61-95): timestamps are seconds as integers; `now` is the clock read before
the run and `completion` the fresh clock read after the runner returns or
raises.  Monitor writes and durations are outside the embedding. -/
def periodic_tick_task (next_run_at : List (List Nat × Int)) (key : List Nat)
    (interval_seconds : Int) (now completion : Int) (outcome : HandlerOutcome) :
    List (List Nat × Int) × PStep :=
  let schedule_at := (pyDictGet next_run_at key).getD now
  if now < schedule_at then (next_run_at, .skipped)
  else
    match outcome with
    | .cancelled => (next_run_at, .cancelled)
    | .ok =>
      let next_time := completion + max interval_seconds 1
      (pyDictSet next_run_at key next_time, .ran next_time (s2c "success") [])
    | .exc msg =>
      let next_time := completion + max interval_seconds 1
      (pyDictSet next_run_at key next_time, .ran next_time (s2c "failed") msg)

/-- One externally visible effect of `_handle_single_message`: stream
acknowledgment, re-enqueue, dead-letter write, or monitor record update. -/
inductive QAction : Type where
  | ack (stream group message_id : List Nat) : QAction
  | enq (stream : List Nat) (payload : JObj) (retry_count : Int)
      (source_message_id : List Nat) : QAction
  | dead (dead_letter_stream original_stream original_group message_id : List Nat)
      (payload : JObj) (error : List Nat) (retry_count : Int) : QAction
  | markResult (key status : List Nat) (retried dead_lettered : Bool) : QAction
  deriving DecidableEq

/-- `app/workers/queue_worker.py _handle_single_message` as the ordered list
of effects it performs for one delivered message, given the handler outcome;
`none` models the re-raise of `CancelledError`.  Durations and timestamps are
outside the embedding. -/
def handle_single_message {H P : Type} (definition : QCDef H P) (queue_max_retries : Int)
    (message_id : List Nat) (fields : List (List Nat × List Nat))
    (outcome : HandlerOutcome) : Option (List QAction) :=
  let parsed := parse_stream_message fields
  let payload := parsed.1
  let retry_count := parsed.2.1
  let max_retries := resolve_max_retries queue_max_retries definition
  match outcome with
  | .ok =>
    some [.ack definition.stream definition.group message_id,
          .markResult definition.key (s2c "success") false false]
  | .cancelled => none
  | .exc error_message =>
    let next_retry := retry_count + 1
    let dead_lettered := decide (max_retries < next_retry)
    if dead_lettered then
      some [.dead (resolve_dead_letter_stream definition) definition.stream definition.group
              message_id payload error_message next_retry,
            .ack definition.stream definition.group message_id,
            .markResult definition.key (s2c "failed") false true]
    else
      some [.enq definition.stream payload next_retry message_id,
            .ack definition.stream definition.group message_id,
            .markResult definition.key (s2c "failed") true false]

/-- Supervisor state: the two flags `ProcessSupervisor` mutates while
running. -/
structure SupState where
  shutdown_requested : Bool
  unexpected_exit : Option (List Nat × Int)
  deriving DecidableEq

/-- The supervisor state before `run` enters its loop. -/
def initSup : SupState := { shutdown_requested := false, unexpected_exit := none }

/-- `ProcessSupervisor._poll_children` over one snapshot of child poll
results (name paired with the exit code when the child has exited): the first
exit seen while no shutdown is requested records the pair, requests shutdown
and returns early. -/
def pollChildren (st : SupState) : List (List Nat × Option Int) → SupState
  | [] => st
  | (name, rc) :: rest =>
    match rc with
    | none => pollChildren st rest
    | some code =>
      if st.shutdown_requested then pollChildren st rest
      else { shutdown_requested := true, unexpected_exit := some (name, code) }

/-- One iteration of the environment as the supervisor loop observes it:
whether a termination signal has been delivered since the previous iteration,
and the poll results of all children. -/
structure SupEvent where
  signal : Bool
  polls : List (List Nat × Option Int)

/-- The `while not shutdown_requested` loop of `ProcessSupervisor.run` over a
finite trace of observations; the signal handler runs before the poll of the
same iteration. -/
def runLoop (st : SupState) : List SupEvent → SupState
  | [] => st
  | ev :: rest =>
    if st.shutdown_requested then st
    else
      let st1 := if ev.signal then { st with shutdown_requested := true } else st
      runLoop (pollChildren st1 ev.polls) rest

/-- `ProcessSupervisor.run`: the exit code (1 when an unexpected exit was
recorded, else 0) together with the final state. -/
def supRun (events : List SupEvent) : Int × SupState :=
  let final := runLoop initSup events
  (if final.unexpected_exit.isSome then 1 else 0, final)

/-- The first exited child of one poll snapshot, in list order. -/
def firstExit : List (List Nat × Option Int) → Option (List Nat × Int)
  | [] => none
  | (name, rc) :: rest =>
    match rc with
    | none => firstExit rest
    | some code => some (name, code)

/-- Specification-side characterization of what ends the supervisor loop:
the recorded pair of the first unexpected child exit, or `none` when a signal
arrives first (or nothing happens in the observed trace). -/
def triggerExit : List SupEvent → Option (List Nat × Int)
  | [] => none
  | ev :: rest =>
    if ev.signal then none
    else
      match firstExit ev.polls with
      | some p => some p
      | none => triggerExit rest

/-- A scalar in a Redis reply as the monitor service sees it. -/
inductive RVal : Type where
  | int (n : Int) : RVal
  | str (s : List Nat) : RVal
  | nil : RVal
  deriving DecidableEq

/-- Python `int()` applied to a reply scalar: identity on ints, string parse
on strings, `TypeError` on `None`. -/
def pyIntOf : RVal → Option Int
  | .int n => some n
  | .str s => pyIntCore s
  | .nil => none

/-- The reply of the `XPENDING` summary call as
`task_monitor_service.get_stream_group_pending` receives it: a raised backend
error, a dict with an optional `pending` field, a tuple/list, or some other
shape. -/
inductive XPendingReply : Type where
  | backendError : XPendingReply
  | dictReply (pending : Option RVal) : XPendingReply
  | listReply (items : List RVal) : XPendingReply
  | otherReply : XPendingReply
  deriving DecidableEq

/-- `task_monitor_service.get_stream_group_pending`: the backend call is
wrapped in try/except returning 0, the dict branch converts the `pending`
field with a bare `int(...)` (whose failure would propagate, modelled as
`Except.error`), and the tuple branch guards its conversion. -/
def get_stream_group_pending : XPendingReply → Except Unit Int
  | .backendError => .ok 0
  | .dictReply pending =>
    match pyIntOf (pending.getD (.int 0)) with
    | some n => .ok n
    | none => .error ()
  | .listReply [] => .ok 0
  | .listReply (v :: _) => .ok ((pyIntOf v).getD 0)
  | .otherReply => .ok 0

/-- Replies the redis client library can actually produce for the `XPENDING`
summary form: its response callback always parses the `pending` field to an
int. -/
def wfReply : XPendingReply → Bool
  | .dictReply (some (.int _)) => true
  | .dictReply (some _) => false
  | _ => true

/-- `task_monitor_service.heartbeat_key`. -/
def heartbeat_key (worker_type worker_id : List Nat) : List Nat :=
  s2c "pfa:heartbeat:" ++ worker_type ++ 58 :: worker_id

/-- A Redis `SET key value EX ttl` command. -/
structure RedisSetCmd where
  key : List Nat
  value : List Nat
  ex : Int
  deriving DecidableEq

/-- `app/config.py WORKER_HEARTBEAT_TTL_SECONDS` as a function of the
environment string (default 30, minimum 10). -/
def worker_heartbeat_ttl (env : Option (List Nat)) : Int := config_to_int env 30 10

/-- `task_monitor_service.set_worker_heartbeat`: the `SET ... EX` command it
issues; the stored value is the ISO-8601 rendering of the wall clock, passed
in as `now_iso` because real time is outside the embedding. -/
def set_worker_heartbeat (ttl_config : Int) (worker_type worker_id now_iso : List Nat) :
    RedisSetCmd :=
  { key := heartbeat_key worker_type worker_id, value := now_iso, ex := max ttl_config 10 }

theorem pyDictGet_set {β : Type} (m : List (List Nat × β)) (k : List Nat) (v : β) :
    pyDictGet (pyDictSet m k v) k = some v := by
  induction m with
  | nil => simp [pyDictGet, pyDictSet]
  | cons hd tl ih =>
    obtain ⟨k0, v0⟩ := hd
    by_cases h : k0 = k
    · simp [pyDictGet, pyDictSet, h]
    · simp [pyDictGet, pyDictSet, h, ih]

theorem pyDictSet_fresh {β : Type} (m : List (List Nat × β)) (k : List Nat) (v : β)
    (h : m.any (fun p => p.1 == k) = false) : pyDictSet m k v = m ++ [(k, v)] := by
  induction m with
  | nil => simp [pyDictSet]
  | cons hd tl ih =>
    obtain ⟨k0, v0⟩ := hd
    simp only [List.any_cons, Bool.or_eq_false_iff] at h
    have hk : ¬ k0 = k := by
      intro he
      rw [he] at h
      simp at h
    simp [pyDictSet, hk, ih h.2]

theorem pyDictGet_append_fresh {β : Type} (m : List (List Nat × β)) (k : List Nat) (v : β)
    (h : m.any (fun p => p.1 == k) = false) : pyDictGet (m ++ [(k, v)]) k = some v := by
  induction m with
  | nil => simp [pyDictGet]
  | cons hd tl ih =>
    obtain ⟨k0, v0⟩ := hd
    simp only [List.any_cons, Bool.or_eq_false_iff] at h
    have hk : ¬ k0 = k := by
      intro he
      rw [he] at h
      simp at h
    simp [pyDictGet, hk, ih h.2]

theorem pollChildren_shutdown (st : SupState) (polls : List (List Nat × Option Int))
    (h : st.shutdown_requested = true) : pollChildren st polls = st := by
  induction polls with
  | nil => rfl
  | cons hd tl ih =>
    obtain ⟨name, rc⟩ := hd
    cases rc with
    | none => simp [pollChildren, ih]
    | some code => simp [pollChildren, h, ih]

theorem runLoop_stop (st : SupState) (events : List SupEvent)
    (h : st.shutdown_requested = true) : runLoop st events = st := by
  cases events with
  | nil => rfl
  | cons ev rest => simp [runLoop, h]

theorem pollChildren_clean (u : Option (List Nat × Int))
    (polls : List (List Nat × Option Int)) :
    pollChildren ⟨false, u⟩ polls =
      (match firstExit polls with
       | none => (⟨false, u⟩ : SupState)
       | some p => ⟨true, some p⟩) := by
  induction polls with
  | nil => rfl
  | cons hd tl ih =>
    obtain ⟨name, rc⟩ := hd
    cases rc with
    | none => simpa [pollChildren, firstExit] using ih
    | some code => simp [pollChildren, firstExit]

theorem runLoop_trigger (events : List SupEvent) :
    (runLoop initSup events).unexpected_exit = triggerExit events := by
  induction events with
  | nil => rfl
  | cons ev rest ih =>
    cases hs : ev.signal with
    | true =>
      have h1 : pollChildren ⟨true, none⟩ ev.polls = ⟨true, none⟩ :=
        pollChildren_shutdown _ _ rfl
      have h2 : runLoop (⟨true, none⟩ : SupState) rest = ⟨true, none⟩ :=
        runLoop_stop _ _ rfl
      simp [runLoop, initSup, hs, triggerExit, h1, h2]
    | false =>
      cases hf : firstExit ev.polls with
      | none =>
        have h1 : pollChildren ⟨false, none⟩ ev.polls = ⟨false, none⟩ := by
          rw [pollChildren_clean, hf]
        simp only [runLoop, initSup, hs, if_false, Bool.false_eq_true, ite_false]
        rw [h1]
        simpa [triggerExit, hs, hf] using ih
      | some p =>
        have h1 : pollChildren ⟨false, none⟩ ev.polls = ⟨true, some p⟩ := by
          rw [pollChildren_clean, hf]
        have h2 : runLoop (⟨true, some p⟩ : SupState) rest = ⟨true, some p⟩ :=
          runLoop_stop _ _ rfl
        simp only [runLoop, initSup, hs, Bool.false_eq_true, ite_false]
        rw [h1, h2]
        simp [triggerExit, hs, hf]

/-- C5: `ProcessSupervisor.run` exits with code 1 exactly when the loop was
ended by an unexpected child exit (a child polled an exit code while no
shutdown was yet requested), recording that first child's name and exit code,
and exits with code 0 for a signal-driven shutdown (or an exhausted
observation window) with no such exit. -/
theorem supervisor_exit_code (events : List SupEvent) :
    (supRun events).1 = (if (triggerExit events).isSome then 1 else 0) ∧
    (runLoop initSup events).unexpected_exit = triggerExit events := by
  refine ⟨?_, runLoop_trigger events⟩
  simp [supRun, runLoop_trigger events]

/-- C6: the pending-count query returns 0 on a raised backend call and on an
empty pending summary, and never propagates an exception on any reply shape
the backend client can produce. -/
theorem pending_count_fail_soft (reply : XPendingReply) (hwf : wfReply reply = true) :
    (∃ n, get_stream_group_pending reply = .ok n) ∧
    (reply = .backendError → get_stream_group_pending reply = .ok 0) ∧
    (reply = .dictReply (some (.int 0)) → get_stream_group_pending reply = .ok 0) ∧
    (reply = .dictReply none → get_stream_group_pending reply = .ok 0) ∧
    (reply = .listReply [] → get_stream_group_pending reply = .ok 0) := by
  cases reply with
  | backendError => exact ⟨⟨0, rfl⟩, fun _ => rfl, by simp, by simp, by simp⟩
  | dictReply pending =>
    cases pending with
    | none => exact ⟨⟨0, rfl⟩, by simp, by simp, fun _ => rfl, by simp⟩
    | some v =>
      cases v with
      | int n =>
        refine ⟨⟨n, rfl⟩, by simp, ?_, by simp, by simp⟩
        intro h
        have : n = 0 := by
          injection h with h1
          injection h1 with h2
          injection h2
        subst this
        rfl
      | str s => simp [wfReply] at hwf
      | nil => simp [wfReply] at hwf
  | listReply items =>
    cases items with
    | nil => exact ⟨⟨0, rfl⟩, by simp, by simp, by simp, fun _ => rfl⟩
    | cons v rest =>
      exact ⟨⟨(pyIntOf v).getD 0, rfl⟩, by simp, by simp, by simp, by simp⟩
  | otherReply => exact ⟨⟨0, rfl⟩, by simp, by simp, by simp, by simp⟩

theorem pending_count_fail_soft_witness :
    wfReply .backendError = true ∧ get_stream_group_pending .backendError = .ok 0 :=
  ⟨by decide, (pending_count_fail_soft .backendError (by decide)).2.1 rfl⟩

/-- C7: a periodic task that was due and whose runner returned or raised a
non-cancellation exception gets its next scheduled time set to the completion
time plus its interval: the value stored for the task depends only on the
completion clock read (drift-based), so an overrun delays the next run by
itself and the next time is never earlier than the old schedule plus the
interval. -/
theorem periodic_drift_schedule (next_run_at : List (List Nat × Int)) (key : List Nat)
    (interval_seconds : Int) (now completion : Int) (outcome : HandlerOutcome)
    (hdue : (pyDictGet next_run_at key).getD now ≤ now)
    (hrun : outcome = .ok ∨ ∃ msg, outcome = .exc msg) :
    pyDictGet (periodic_tick_task next_run_at key interval_seconds now completion outcome).1 key
      = some (completion + max interval_seconds 1) ∧
    (∃ st e, (periodic_tick_task next_run_at key interval_seconds now completion outcome).2
      = .ran (completion + max interval_seconds 1) st e) ∧
    (1 ≤ interval_seconds →
      completion + max interval_seconds 1 = completion + interval_seconds) ∧
    (∀ m2 now2, (pyDictGet m2 key).getD now2 ≤ now2 →
      (periodic_tick_task m2 key interval_seconds now2 completion outcome).2
        = (periodic_tick_task next_run_at key interval_seconds now completion outcome).2) ∧
    (∀ schedule_at, schedule_at ≤ completion →
      schedule_at + interval_seconds ≤ completion + max interval_seconds 1) := by
  have hnl : ¬ now < (pyDictGet next_run_at key).getD now := not_lt.mpr hdue
  rcases hrun with h | ⟨msg, h⟩ <;> subst h
  · refine ⟨?_, ⟨s2c "success", [], ?_⟩, ?_, ?_, ?_⟩
    · simp [periodic_tick_task, hnl, pyDictGet_set]
    · simp [periodic_tick_task, hnl]
    · intro h1
      have : max interval_seconds 1 = interval_seconds := max_eq_left h1
      rw [this]
    · intro m2 now2 h2
      have hnl2 : ¬ now2 < (pyDictGet m2 key).getD now2 := not_lt.mpr h2
      simp [periodic_tick_task, hnl, hnl2]
    · intro sa hsa
      have := le_max_left interval_seconds 1
      omega
  · refine ⟨?_, ⟨s2c "failed", msg, ?_⟩, ?_, ?_, ?_⟩
    · simp [periodic_tick_task, hnl, pyDictGet_set]
    · simp [periodic_tick_task, hnl]
    · intro h1
      have : max interval_seconds 1 = interval_seconds := max_eq_left h1
      rw [this]
    · intro m2 now2 h2
      have hnl2 : ¬ now2 < (pyDictGet m2 key).getD now2 := not_lt.mpr h2
      simp [periodic_tick_task, hnl, hnl2]
    · intro sa hsa
      have := le_max_left interval_seconds 1
      omega

theorem periodic_drift_schedule_witness :
    ((pyDictGet ([] : List (List Nat × Int)) (s2c "t")).getD 100 ≤ 100) ∧
    pyDictGet (periodic_tick_task [] (s2c "t") 5 100 103 .ok).1 (s2c "t") = some 108 :=
  ⟨by decide,
    by
      have h := periodic_drift_schedule [] (s2c "t") 5 100 103 .ok (by decide) (Or.inl rfl)
      simpa using h.1⟩

/-- C2 (code bug evaluation): a queue consumer registered with the
dead-letter override omitted stores the literal string `None` (because
`str(None).strip()` is the non-empty string `None`), so the dead-letter
stream used is `None` rather than the documented `stream:dead` default. -/
theorem dead_letter_default_bug :
    (register_queue_consumer ([] : List (List Nat × QCDef Unit Unit))
        (s2c "demo_events_consumer") (s2c "demo consumer") (s2c "pfa:queue:demo_events")
        (s2c "pfa_demo_group") () none none none none none).2.toOption.map
        (fun d => resolve_dead_letter_stream d) = some (s2c "None") ∧
    s2c "None" ≠ s2c "pfa:queue:demo_events:dead" :=
  ⟨by decide, by decide⟩

/-- C10 (counterexample): the heartbeat written for worker type `queue` and
id `queue-0` lives under `pfa:heartbeat:queue:queue-0`, not under the key
`heartbeat:queue:queue-0` stated by the claim. -/
theorem heartbeat_key_counterexample :
    (set_worker_heartbeat 30 (s2c "queue") (s2c "queue-0")
        (s2c "2026-10-12T00:00:00+00:00")).key = s2c "pfa:heartbeat:queue:queue-0" ∧
    (set_worker_heartbeat 30 (s2c "queue") (s2c "queue-0")
        (s2c "2026-10-12T00:00:00+00:00")).key ≠ s2c "heartbeat:queue:queue-0" :=
  ⟨by decide, by decide⟩

/-- C10 (amended): every heartbeat write stores the provided current-time
string under `pfa:heartbeat:<workerType>:<workerId>` with expiry
`max(WORKER_HEARTBEAT_TTL_SECONDS, 10)`, never below 10 seconds, and the
configured TTL itself is already clamped to at least 10. -/
theorem heartbeat_set_amended (ttl_config : Int) (worker_type worker_id now_iso : List Nat) :
    (set_worker_heartbeat ttl_config worker_type worker_id now_iso).key
      = s2c "pfa:heartbeat:" ++ worker_type ++ 58 :: worker_id ∧
    (set_worker_heartbeat ttl_config worker_type worker_id now_iso).value = now_iso ∧
    (set_worker_heartbeat ttl_config worker_type worker_id now_iso).ex = max ttl_config 10 ∧
    10 ≤ (set_worker_heartbeat ttl_config worker_type worker_id now_iso).ex ∧
    ∀ env, 10 ≤ worker_heartbeat_ttl env := by
  refine ⟨rfl, rfl, rfl, le_max_right _ _, ?_⟩
  intro env
  unfold worker_heartbeat_ttl config_to_int
  cases h : pyIntCore (pyStrip (pyStrOpt env)) with
  | none => simp
  | some n =>
    simp only []
    split
    · omega
    · omega

/-- C4: registering a valid periodic task succeeds; a second valid
registration under the same key raises the duplicate-key error and leaves the
registry state untouched, so the listing still ends with exactly the first
definition and the key still maps to it. -/
theorem register_periodic_duplicate {R P : Type} (reg0 : List (List Nat × PTDef R P))
    (key name1 name2 : List Nat) (i1 i2 : Int) (run1 run2 : R)
    (t1 t2 : Option (List (List Nat))) (c1 c2 : Option (List DisplayColumn))
    (pv1 pv2 : Option P)
    (hk : pyStrip key ≠ []) (hn1 : pyStrip name1 ≠ []) (hi1 : 0 < i1)
    (hn2 : pyStrip name2 ≠ []) (hi2 : 0 < i2)
    (hfresh : reg0.any (fun p => p.1 == pyStrip key) = false) :
    ∃ d1, (register_periodic_task reg0 key name1 i1 run1 t1 c1 pv1).2 = .ok d1 ∧
      register_periodic_task (register_periodic_task reg0 key name1 i1 run1 t1 c1 pv1).1
          key name2 i2 run2 t2 c2 pv2
        = ((register_periodic_task reg0 key name1 i1 run1 t1 c1 pv1).1,
           .error (.duplicatePeriodic (pyStrip key))) ∧
      list_periodic_tasks (register_periodic_task reg0 key name1 i1 run1 t1 c1 pv1).1
        = list_periodic_tasks reg0 ++ [d1] ∧
      pyDictGet (register_periodic_task reg0 key name1 i1 run1 t1 c1 pv1).1 (pyStrip key)
        = some d1 := by
  have hi1' : ¬ i1 ≤ 0 := by omega
  have hi2' : ¬ i2 ≤ 0 := by omega
  have hstate : (register_periodic_task reg0 key name1 i1 run1 t1 c1 pv1).1
      = reg0 ++ [(pyStrip key,
          { key := pyStrip key, name := pyStrip name1, interval_seconds := i1,
            runner := run1, tags := normalize_tags t1,
            display_columns := normalize_columns c1,
            display_values_provider := pv1 })] := by
    simp [register_periodic_task, hk, hn1, hi1', hfresh, pyDictSet_fresh reg0 _ _ hfresh]
  refine ⟨(⟨pyStrip key, pyStrip name1, i1, run1, normalize_tags t1,
      normalize_columns c1, pv1⟩ : PTDef R P), ?_, ?_, ?_, ?_⟩
  · simp [register_periodic_task, hk, hn1, hi1', hfresh]
  · rw [hstate]
    have hdup2 : ((reg0 ++ [(pyStrip key,
        (⟨pyStrip key, pyStrip name1, i1, run1, normalize_tags t1,
          normalize_columns c1, pv1⟩ : PTDef R P))]).any
        (fun p => p.1 == pyStrip key)) = true := by
      simp
    simp only [register_periodic_task]
    rw [if_neg hk, if_neg hn2, if_neg hi2', if_pos hdup2]
  · rw [hstate]
    simp [list_periodic_tasks]
  · rw [hstate]
    exact pyDictGet_append_fresh reg0 _ _ hfresh

theorem register_periodic_duplicate_witness :
    (pyStrip (s2c "job") ≠ [] ∧ pyStrip (s2c "Job A") ≠ [] ∧ (0 : Int) < 60 ∧
     pyStrip (s2c "Job B") ≠ [] ∧ (0 : Int) < 90 ∧
     ([] : List (List Nat × PTDef Unit Unit)).any
       (fun p => p.1 == pyStrip (s2c "job")) = false) ∧
    ∃ d1, (register_periodic_task ([] : List (List Nat × PTDef Unit Unit))
        (s2c "job") (s2c "Job A") 60 () none none none).2 = .ok d1 ∧
      register_periodic_task (register_periodic_task ([] : List (List Nat × PTDef Unit Unit))
          (s2c "job") (s2c "Job A") 60 () none none none).1
          (s2c "job") (s2c "Job B") 90 () none none none
        = ((register_periodic_task ([] : List (List Nat × PTDef Unit Unit))
            (s2c "job") (s2c "Job A") 60 () none none none).1,
           .error (.duplicatePeriodic (pyStrip (s2c "job")))) ∧
      list_periodic_tasks (register_periodic_task ([] : List (List Nat × PTDef Unit Unit))
          (s2c "job") (s2c "Job A") 60 () none none none).1
        = list_periodic_tasks ([] : List (List Nat × PTDef Unit Unit)) ++ [d1] ∧
      pyDictGet (register_periodic_task ([] : List (List Nat × PTDef Unit Unit))
          (s2c "job") (s2c "Job A") 60 () none none none).1 (pyStrip (s2c "job"))
        = some d1 :=
  ⟨⟨by decide, by decide, by decide, by decide, by decide, by decide⟩,
   register_periodic_duplicate [] (s2c "job") (s2c "Job A") (s2c "Job B") 60 90 () ()
     none none none none none none (by decide) (by decide) (by decide) (by decide)
     (by decide) (by decide)⟩

theorem sum_map_zero {α : Type} (L : List α) : (L.map (fun _ => (0 : Nat))).sum = 0 := by
  induction L with
  | nil => rfl
  | cons hd tl ih => simp [ih]

theorem sum_map_add {α : Type} (L : List α) (f g : α → Nat) :
    (L.map (fun a => f a + g a)).sum = (L.map f).sum + (L.map g).sum := by
  induction L with
  | nil => rfl
  | cons hd tl ih =>
    simp only [List.map_cons, List.sum_cons, ih]
    omega

theorem sum_indicator (n j c : Nat) :
    ((List.range n).map (fun wi => if j == wi then c else 0)).sum
      = if j < n then c else 0 := by
  induction n with
  | zero => simp
  | succ n ih =>
    rw [List.range_succ, List.map_append, List.sum_append, ih]
    rcases lt_trichotomy j n with h | h | h
    · have h1 : j < n + 1 := by omega
      have h2 : ¬ j = n := by omega
      simp [h, h1, h2]
    · subst h
      simp
    · have h1 : ¬ j < n := by omega
      have h2 : ¬ j < n + 1 := by omega
      have h3 : ¬ j = n := by omega
      simp [h1, h2, h3]

theorem countP_sum_split {α : Type} (l : List (Nat × α)) (total : Nat) (x : α)
    [DecidableEq α] (h : 0 < total) :
    ((List.range total).map
        (fun wi => l.countP (fun p => (p.2 == x) && (p.1 % total == wi)))).sum
      = l.countP (fun p => p.2 == x) := by
  induction l with
  | nil => simp [sum_map_zero (List.range total)]
  | cons p l ih =>
    simp only [List.countP_cons]
    rw [sum_map_add]
    rw [ih]
    have hmod : p.1 % total < total := Nat.mod_lt _ h
    by_cases hx : p.2 == x
    · have : ((List.range total).map
          (fun wi => if (p.2 == x) && (p.1 % total == wi) then 1 else 0)).sum = 1 := by
        have he : (fun wi => if (p.2 == x) && (p.1 % total == wi) then 1 else 0)
            = fun wi => if p.1 % total == wi then 1 else 0 := by
          funext wi
          simp [hx]
        rw [he, sum_indicator]
        simp [hmod]
      rw [this]
      simp [hx]
    · have : ((List.range total).map
          (fun wi => if (p.2 == x) && (p.1 % total == wi) then 1 else 0)).sum = 0 := by
        have he : (fun wi => if (p.2 == x) && (p.1 % total == wi) then (1 : Nat) else 0)
            = fun _ => (0 : Nat) := by
          funext wi
          simp [hx]
        rw [he, sum_map_zero]
      rw [this]
      simp [hx]

theorem count_concat {α : Type} [DecidableEq α] (L : List (List α)) (x : α) :
    (L.foldr (· ++ ·) []).count x = (L.map (fun l => l.count x)).sum := by
  induction L with
  | nil => rfl
  | cons hd tl ih => simp [List.count_append, ih]

theorem count_assign {α : Type} [DecidableEq α] (tasks : List α) (wi total : Nat) (x : α)
    (h : ¬ total ≤ 1) :
    (assignTasks tasks wi total).count x
      = tasks.enum.countP (fun p => (p.2 == x) && (p.1 % total == wi)) := by
  rw [assignTasks, if_neg h]
  rw [List.count_eq_countP]
  rw [List.countP_map]
  rw [List.countP_filter]
  apply List.countP_congr
  intro p _
  simp [Function.comp]

/-- C3: for any worker count at least 1 the shards over all worker indexes
concatenate to a permutation of the task list (each task owned exactly once),
and the task at index `i` is owned by the worker whose index is
`i mod workerTotal`. -/
theorem assign_tasks_partition {α : Type} [DecidableEq α] (tasks : List α)
    (worker_total : Nat) (h : 1 ≤ worker_total) :
    (((List.range worker_total).map (fun wi => assignTasks tasks wi worker_total)).foldr
        (· ++ ·) []).Perm tasks ∧
    ∀ i (hi : i < tasks.length),
      tasks.get ⟨i, hi⟩ ∈ assignTasks tasks (i % worker_total) worker_total := by
  constructor
  · by_cases h1 : worker_total ≤ 1
    · have : worker_total = 1 := by omega
      subst this
      simp [List.range_succ, assignTasks]
    · rw [List.perm_iff_count]
      intro x
      rw [count_concat, List.map_map]
      have he : ((fun l => List.count x l) ∘ fun wi => assignTasks tasks wi worker_total)
          = fun wi => tasks.enum.countP
              (fun p => (p.2 == x) && (p.1 % worker_total == wi)) := by
        funext wi
        simp only [Function.comp]
        exact count_assign tasks wi worker_total x h1
      rw [he, countP_sum_split _ _ _ (by omega)]
      rw [List.count_eq_countP]
      have he2 : (fun p : Nat × α => p.2 == x) = ((fun a => a == x) ∘ Prod.snd) := rfl
      rw [he2, ← List.countP_map, List.enum_map_snd]
  · intro i hi
    by_cases h1 : worker_total ≤ 1
    · rw [assignTasks, if_pos h1]
      exact List.get_mem tasks i hi
    · rw [assignTasks, if_neg h1]
      have hlen : i < tasks.enum.length := by simp [hi]
      have hmem : (i, tasks.get ⟨i, hi⟩) ∈ tasks.enum := by
        have h2 : tasks.enum.get ⟨i, hlen⟩ = (i, tasks.get ⟨i, hi⟩) := by
          simp [List.get_eq_getElem, List.getElem_enum]
        rw [← h2]
        exact List.get_mem tasks.enum i hlen
      have hf : (i, tasks.get ⟨i, hi⟩) ∈
          tasks.enum.filter (fun p => p.1 % worker_total == i % worker_total) :=
        List.mem_filter.mpr ⟨hmem, by simp⟩
      simpa using List.mem_map_of_mem Prod.snd hf

theorem assign_tasks_partition_witness :
    1 ≤ 2 ∧
    ((((List.range 2).map (fun wi => assignTasks [10, 20, 10] wi 2)).foldr
        (· ++ ·) []).Perm [10, 20, 10] ∧
     ∀ i (hi : i < ([10, 20, 10] : List Nat).length),
       ([10, 20, 10] : List Nat).get ⟨i, hi⟩ ∈ assignTasks [10, 20, 10] (i % 2) 2) :=
  ⟨by decide, assign_tasks_partition [10, 20, 10] 2 (by decide)⟩

/-- A concrete consumer definition (handler and provider erased to `Unit`)
used to exercise the failure path at a concrete input. -/
def qcDemo : QCDef Unit Unit :=
  { key := s2c "demo_events_consumer", name := s2c "demo consumer",
    stream := s2c "pfa:queue:demo_events", group := s2c "pfa_demo_group",
    handler := (), tags := [], max_retries := some 0, dead_letter_stream := none,
    display_columns := [], display_values_provider := none }

/-- C1: when the handler of a delivered message raises a non-cancellation
exception, the worker computes `nextRetry = retryCount + 1` from the parsed
fields; if `nextRetry` exceeds the effective maximum (consumer override or
global default) the message goes to the resolved dead-letter stream with that
retry count and is acknowledged without any re-enqueue, otherwise the parsed
payload is re-enqueued onto the original stream with `retryCount = nextRetry`
and `sourceMessageId` equal to the failed message id and the original is
acknowledged without any dead-letter write; both branches record a failed
monitor result for the consumer key. -/
theorem queue_failure_retry_dead_letter {H P : Type} (definition : QCDef H P)
    (queue_max_retries : Int) (message_id : List Nat)
    (fields : List (List Nat × List Nat)) (error_message : List Nat) :
    ∃ trace, handle_single_message definition queue_max_retries message_id fields
        (.exc error_message) = some trace ∧
      QAction.ack definition.stream definition.group message_id ∈ trace ∧
      (resolve_max_retries queue_max_retries definition
          < (parse_stream_message fields).2.1 + 1 →
        QAction.dead (resolve_dead_letter_stream definition) definition.stream
            definition.group message_id (parse_stream_message fields).1 error_message
            ((parse_stream_message fields).2.1 + 1) ∈ trace ∧
        (∀ s p rc sm, QAction.enq s p rc sm ∉ trace) ∧
        QAction.markResult definition.key (s2c "failed") false true ∈ trace) ∧
      ((parse_stream_message fields).2.1 + 1
          ≤ resolve_max_retries queue_max_retries definition →
        QAction.enq definition.stream (parse_stream_message fields).1
            ((parse_stream_message fields).2.1 + 1) message_id ∈ trace ∧
        (∀ a b c d e f g, QAction.dead a b c d e f g ∉ trace) ∧
        QAction.markResult definition.key (s2c "failed") true false ∈ trace) := by
  by_cases hc : resolve_max_retries queue_max_retries definition
      < (parse_stream_message fields).2.1 + 1
  · refine ⟨[QAction.dead (resolve_dead_letter_stream definition) definition.stream
        definition.group message_id (parse_stream_message fields).1 error_message
        ((parse_stream_message fields).2.1 + 1),
      QAction.ack definition.stream definition.group message_id,
      QAction.markResult definition.key (s2c "failed") false true], ?_, ?_, ?_, ?_⟩
    · simp [handle_single_message, hc]
    · simp
    · intro _
      refine ⟨by simp, ?_, by simp⟩
      intro s p rc sm
      simp
    · intro hle
      omega
  · refine ⟨[QAction.enq definition.stream (parse_stream_message fields).1
        ((parse_stream_message fields).2.1 + 1) message_id,
      QAction.ack definition.stream definition.group message_id,
      QAction.markResult definition.key (s2c "failed") true false], ?_, ?_, ?_, ?_⟩
    · simp [handle_single_message, hc]
    · simp
    · intro hlt
      omega
    · intro _
      refine ⟨by simp, ?_, by simp⟩
      intro a b c d e f g
      simp

theorem queue_failure_retry_dead_letter_witness :
    (resolve_max_retries 3 qcDemo < (parse_stream_message []).2.1 + 1) ∧
    ∃ trace, handle_single_message qcDemo 3 (s2c "1-0") [] (.exc (s2c "boom"))
        = some trace ∧
      QAction.dead (resolve_dead_letter_stream qcDemo) qcDemo.stream qcDemo.group
          (s2c "1-0") (parse_stream_message []).1 (s2c "boom")
          ((parse_stream_message []).2.1 + 1) ∈ trace ∧
      (∀ s p rc sm, QAction.enq s p rc sm ∉ trace) := by
  refine ⟨by decide, ?_⟩
  obtain ⟨tr, h1, _, h3, _⟩ :=
    queue_failure_retry_dead_letter qcDemo 3 (s2c "1-0") [] (s2c "boom")
  obtain ⟨hd, hne, _⟩ := h3 (by decide)
  exact ⟨tr, h1, hd, hne⟩

/-- C8: parse_stream_message is a total function of the field map and each
component falls back exactly as specified: a missing payload (and, via the
next two conjuncts, an undecodable or non-object payload) yields the empty
dict, a missing or unparsable retry_count yields 0 and a parsed one is
clamped at 0 (so the result is never negative), and a missing
source_message_id yields the empty string. -/
theorem parse_stream_message_defaults (fields : List (List Nat × List Nat)) :
    (pyDictGet fields (s2c "payload") = none → (parse_stream_message fields).1 = .nil) ∧
    (json_loads (orDefault (pyDictGet fields (s2c "payload")) (s2c "\x7b\x7d")) = none →
      (parse_stream_message fields).1 = .nil) ∧
    (∀ v, json_loads (orDefault (pyDictGet fields (s2c "payload")) (s2c "\x7b\x7d"))
        = some v → (∀ o, v ≠ .obj o) → (parse_stream_message fields).1 = .nil) ∧
    (pyDictGet fields (s2c "retry_count") = none → (parse_stream_message fields).2.1 = 0) ∧
    (pyIntCore (orDefault (pyDictGet fields (s2c "retry_count")) (s2c "0")) = none →
      (parse_stream_message fields).2.1 = 0) ∧
    (∀ n, pyIntCore (orDefault (pyDictGet fields (s2c "retry_count")) (s2c "0")) = some n →
      (parse_stream_message fields).2.1 = max n 0) ∧
    0 ≤ (parse_stream_message fields).2.1 ∧
    (pyDictGet fields (s2c "source_message_id") = none →
      (parse_stream_message fields).2.2 = []) := by
  refine ⟨?_, ?_, ?_, ?_, ?_, ?_, ?_, ?_⟩
  · intro h
    simp only [parse_stream_message, h]
    rfl
  · intro h
    simp [parse_stream_message, json_loads_dict, h]
  · intro v hv hno
    simp only [parse_stream_message, json_loads_dict, hv]
    cases v with
    | obj o => exact absurd rfl (hno o)
    | null => rfl
    | bool b => rfl
    | num n => rfl
    | str s => rfl
    | arr items => rfl
  · intro h
    simp only [parse_stream_message, h]
    rfl
  · intro h
    simp [parse_stream_message, h]
  · intro n h
    simp [parse_stream_message, h]
  · simp only [parse_stream_message]
    cases h : pyIntCore (orDefault (pyDictGet fields (s2c "retry_count")) (s2c "0")) with
    | none => simp
    | some n => simp [le_max_right]
  · intro h
    simp [parse_stream_message, h, orDefault]

theorem parse_stream_message_defaults_witness :
    (pyDictGet ([] : List (List Nat × List Nat)) (s2c "payload") = none ∧
     pyDictGet ([] : List (List Nat × List Nat)) (s2c "retry_count") = none ∧
     pyDictGet ([] : List (List Nat × List Nat)) (s2c "source_message_id") = none) ∧
    ((parse_stream_message []).1 = .nil ∧ (parse_stream_message []).2.1 = 0 ∧
     (parse_stream_message []).2.2 = []) :=
  ⟨⟨by decide, by decide, by decide⟩,
   ⟨(parse_stream_message_defaults []).1 (by decide),
    (parse_stream_message_defaults []).2.2.2.1 (by decide),
    (parse_stream_message_defaults []).2.2.2.2.2.2.2 (by decide)⟩⟩

theorem skipWs_notWs (c : Nat) (r : List Nat) (h : isJsonWs c = false) :
    skipWs (c :: r) = c :: r := by
  simp [skipWs, h]

theorem hexVal_hexDig (d : Nat) (h : d < 16) : hexVal (hexDig d) = some d := by
  by_cases h10 : d < 10
  · simp only [hexDig, if_pos h10, hexVal]
    rw [if_pos (by
      simp
      omega : (48 ≤ 48 + d && 48 + d ≤ 57) = true)]
    congr 1
    omega
  · have h1 : (48 ≤ 87 + d && 87 + d ≤ 57) = false := by
      simp
      omega
    have h2 : (97 ≤ 87 + d && 87 + d ≤ 102) = true := by
      simp
      omega
    simp only [hexDig, if_neg h10, hexVal, h1, h2, Bool.false_eq_true, if_false, if_true,
      ite_false, ite_true]
    congr 1
    omega

theorem scanHex4_hex4 (n : Nat) (rest : List Nat) (h : n < 65536) :
    scanHex4 (hex4 n ++ rest) = some (n, rest) := by
  have e1 := hexVal_hexDig (n / 4096 % 16) (Nat.mod_lt _ (by omega))
  have e2 := hexVal_hexDig (n / 256 % 16) (Nat.mod_lt _ (by omega))
  have e3 := hexVal_hexDig (n / 16 % 16) (Nat.mod_lt _ (by omega))
  have e4 := hexVal_hexDig (n % 16) (Nat.mod_lt _ (by omega))
  have hd : n / 4096 % 16 = n / 4096 := by
    have : n / 4096 < 16 := by omega
    omega
  simp only [hex4, List.cons_append, List.nil_append, scanHex4, e1, e2, e3, e4]
  have : n / 4096 % 16 * 4096 + n / 256 % 16 * 256 + n / 16 % 16 * 16 + n % 16 = n := by
    omega
  rw [this]

theorem natDigsGo_digits (fuel n : Nat) :
    ∀ c ∈ natDigsGo fuel n, 48 ≤ c ∧ c ≤ 57 := by
  induction fuel generalizing n with
  | zero => intro c hc; simp [natDigsGo] at hc
  | succ fuel ih =>
    intro c hc
    cases n with
    | zero => simp [natDigsGo] at hc
    | succ m =>
      simp only [natDigsGo, List.mem_append, List.mem_singleton] at hc
      rcases hc with hc | hc
      · exact ih _ c hc
      · subst hc
        constructor
        · omega
        · have : (m + 1) % 10 < 10 := Nat.mod_lt _ (by omega)
          omega

theorem natDigsGo_zero (fuel : Nat) : natDigsGo fuel 0 = [] := by
  cases fuel <;> rfl

theorem natDigsGo_head (fuel n : Nat) (h1 : 1 ≤ n) (h2 : n ≤ fuel) :
    ∃ c t, natDigsGo fuel n = c :: t ∧ 49 ≤ c ∧ c ≤ 57 := by
  induction fuel generalizing n with
  | zero => omega
  | succ fuel ih =>
    cases n with
    | zero => omega
    | succ m =>
      by_cases hq : (m + 1) / 10 = 0
      · have hm : m + 1 ≤ 9 := by omega
        have hmod : (m + 1) % 10 = m + 1 := by omega
        refine ⟨48 + (m + 1) % 10, [], ?_, by omega, by omega⟩
        simp [natDigsGo, hq, natDigsGo_zero]
      · have hle : (m + 1) / 10 ≤ fuel := by
          have := Nat.div_lt_self (show 0 < m + 1 by omega) (show 1 < 10 by omega)
          omega
        obtain ⟨c, t, he, hc1, hc2⟩ := ih ((m + 1) / 10) (by omega) hle
        refine ⟨c, t ++ [48 + (m + 1) % 10], ?_, hc1, hc2⟩
        simp [natDigsGo, he]

theorem natDigsGo_val (fuel n a : Nat) (h : n ≤ fuel) :
    List.foldl (fun x c => x * 10 + (c - 48)) a (natDigsGo fuel n)
      = a * 10 ^ (natDigsGo fuel n).length + n := by
  induction fuel generalizing n a with
  | zero =>
    have : n = 0 := by omega
    subst this
    simp [natDigsGo]
  | succ fuel ih =>
    cases n with
    | zero => simp [natDigsGo]
    | succ m =>
      have hlt : (m + 1) / 10 ≤ fuel := by
        have := Nat.div_lt_self (show 0 < m + 1 by omega) (show 1 < 10 by omega)
        omega
      have hdm : (m + 1) / 10 * 10 + (m + 1) % 10 = m + 1 := by omega
      have hsub : 48 + (m + 1) % 10 - 48 = (m + 1) % 10 := by omega
      simp only [natDigsGo, List.foldl_append, List.length_append, List.length_cons,
        List.length_nil, List.foldl_cons, List.foldl_nil, Nat.zero_add]
      rw [ih _ a hlt, hsub, pow_succ]
      have hr : (a * 10 ^ (natDigsGo fuel ((m + 1) / 10)).length + (m + 1) / 10) * 10
            + (m + 1) % 10
          = a * (10 ^ (natDigsGo fuel ((m + 1) / 10)).length * 10)
            + ((m + 1) / 10 * 10 + (m + 1) % 10) := by
        ring
      rw [hr, hdm]

theorem digsToNat_natDigs (n : Nat) : digsToNat (natDigs n) = n := by
  by_cases h : n = 0
  · subst h
    rfl
  · rw [natDigs, if_neg h, digsToNat]
    rw [natDigsGo_val n n 0 (le_refl n)]
    simp

theorem natDigs_digits (n : Nat) : ∀ c ∈ natDigs n, 48 ≤ c ∧ c ≤ 57 := by
  rw [natDigs]
  by_cases h : n = 0
  · simp [h]
  · rw [if_neg h]
    exact natDigsGo_digits n n

theorem natDigs_head (n : Nat) :
    ∃ c t, natDigs n = c :: t ∧ 48 ≤ c ∧ c ≤ 57 ∧ (1 ≤ n → 49 ≤ c) := by
  by_cases h : n = 0
  · subst h
    exact ⟨48, [], rfl, by omega, by omega, by omega⟩
  · rw [natDigs, if_neg h]
    obtain ⟨c, t, he, h1, h2⟩ := natDigsGo_head n n (by omega) (le_refl n)
    exact ⟨c, t, he, by omega, h2, fun _ => h1⟩

theorem takeWhile_append_all {p : Nat → Bool} (l rest : List Nat)
    (hall : ∀ c ∈ l, p c = true) (hrest : ∀ c, rest.head? = some c → p c = false) :
    (l ++ rest).takeWhile p = l ∧ (l ++ rest).dropWhile p = rest := by
  induction l with
  | nil =>
    simp only [List.nil_append]
    cases rest with
    | nil => simp
    | cons c r =>
      have := hrest c rfl
      simp [List.takeWhile, List.dropWhile, this]
  | cons hd tl ih =>
    have hhd : p hd = true := hall hd (by simp)
    have htl : ∀ c ∈ tl, p c = true := fun c hc => hall c (by simp [hc])
    obtain ⟨h1, h2⟩ := ih htl
    simp [List.takeWhile, List.dropWhile, hhd, h1, h2]

/-- Characters that may legitimately follow a serialized value inside a
larger serialized term: nothing, or a separator or closer. -/
def tailOk : List Nat → Bool
  | [] => true
  | c :: _ => c = 44 || c = 93 || c = 125

theorem tailOk_not_digit (rest : List Nat) (h : tailOk rest = true) :
    (∀ c, rest.head? = some c → isDigitCode c = false) ∧ floatFollows rest = false := by
  cases rest with
  | nil => exact ⟨fun c hc => by simp at hc, rfl⟩
  | cons c r =>
    simp only [tailOk, Bool.or_eq_true, decide_eq_true_eq] at h
    constructor
    · intro d hd
      simp only [List.head?] at hd
      have hdc := Option.some.inj hd
      rw [← hdc]
      rcases h with (h | h) | h <;> rw [h] <;> rfl
    · rcases h with (h | h) | h <;> rw [h] <;> rfl

theorem scanNumber_core (c : Nat) (t rest : List Nat)
    (h48 : 48 ≤ c) (h57 : c ≤ 57)
    (hall : ∀ d ∈ t, isDigitCode d = true)
    (hnd : ∀ d, rest.head? = some d → isDigitCode d = false)
    (hff : floatFollows rest = false)
    (hnz : c = 48 → t = []) :
    scanNumber (c :: (t ++ rest)) = some (.num (digsToNat (c :: t) : Int), rest) := by
  have hc45 : ¬ c = 45 := by omega
  have hsp : splitSign (c :: (t ++ rest)) = (false, c :: (t ++ rest)) := by
    simp [splitSign, hc45]
  have hcd : isDigitCode c = true := by
    simp [isDigitCode]
    omega
  by_cases hc : c = 48
  · have ht := hnz hc
    subst ht
    subst hc
    have hsp2 : splitSign (48 :: rest) = (false, 48 :: rest) := by
      simp [splitSign]
    simp [scanNumber, hsp2, hff, isDigitCode]
  · have htw := takeWhile_append_all (p := isDigitCode) (c :: t) rest
      (by
        intro d hd
        rcases List.mem_cons.mp hd with hd | hd
        · subst hd
          exact hcd
        · exact hall d hd)
      hnd
    rw [List.cons_append] at htw
    simp [scanNumber, hsp, hcd, hc, htw.1, htw.2, hff]

theorem scanNumber_core_neg (c : Nat) (t rest : List Nat)
    (h48 : 48 ≤ c) (h57 : c ≤ 57)
    (hall : ∀ d ∈ t, isDigitCode d = true)
    (hnd : ∀ d, rest.head? = some d → isDigitCode d = false)
    (hff : floatFollows rest = false)
    (hnz : c = 48 → t = []) :
    scanNumber (45 :: c :: (t ++ rest))
      = some (.num (-(digsToNat (c :: t) : Int)), rest) := by
  have hsp : splitSign (45 :: c :: (t ++ rest)) = (true, c :: (t ++ rest)) := by
    simp [splitSign]
  have hcd : isDigitCode c = true := by
    simp [isDigitCode]
    omega
  by_cases hc : c = 48
  · have ht := hnz hc
    subst ht
    subst hc
    have hsp2 : splitSign (45 :: 48 :: rest) = (true, 48 :: rest) := by
      simp [splitSign]
    simp [scanNumber, hsp2, hff, isDigitCode]
  · have htw := takeWhile_append_all (p := isDigitCode) (c :: t) rest
      (by
        intro d hd
        rcases List.mem_cons.mp hd with hd | hd
        · subst hd
          exact hcd
        · exact hall d hd)
      hnd
    rw [List.cons_append] at htw
    simp [scanNumber, hsp, hcd, hc, htw.1, htw.2, hff]

theorem scanNumber_intToStr (n : Int) (rest : List Nat) (h : tailOk rest = true) :
    scanNumber (intToStr n ++ rest) = some (.num n, rest) := by
  obtain ⟨hnd, hff⟩ := tailOk_not_digit rest h
  by_cases hneg : n < 0
  · rw [intToStr, if_pos hneg]
    obtain ⟨c, t, he, h48, h57, h49⟩ := natDigs_head n.natAbs
    have hdigs := natDigs_digits n.natAbs
    rw [he] at hdigs
    rw [he]
    have hc49 := h49 (by omega)
    simp only [List.cons_append]
    rw [scanNumber_core_neg c t rest h48 h57
      (fun d hd => by
        have := hdigs d (by simp [hd])
        simp [isDigitCode]
        omega)
      hnd hff (fun hc => by omega)]
    have hval : digsToNat (c :: t) = n.natAbs := by
      rw [← he]
      exact digsToNat_natDigs n.natAbs
    rw [hval]
    have : -(n.natAbs : Int) = n := by omega
    rw [this]
  · rw [intToStr, if_neg hneg]
    obtain ⟨c, t, he, h48, h57, h49⟩ := natDigs_head n.toNat
    have hdigs := natDigs_digits n.toNat
    rw [he] at hdigs
    rw [he]
    have hz : c = 48 → t = [] := by
      intro hc
      subst hc
      by_cases h0 : n.toNat = 0
      · rw [h0] at he
        rw [natDigs, if_pos rfl] at he
        exact (List.cons.inj he).2.symm
      · have := h49 (by omega)
        omega
    simp only [List.cons_append]
    rw [scanNumber_core c t rest h48 h57
      (fun d hd => by
        have := hdigs d (by simp [hd])
        simp [isDigitCode]
        omega)
      hnd hff hz]
    have hval : digsToNat (c :: t) = n.toNat := by
      rw [← he]
      exact digsToNat_natDigs n.toNat
    rw [hval]
    have : (n.toNat : Int) = n := by omega
    rw [this]

theorem escAll_cons (c : Nat) (s : List Nat) : escAll (c :: s) = escCode c ++ escAll s := rfl

theorem scanStrRest_surrogate (hi lo : Nat) (tail : List Nat) (f : Nat)
    (hhi1 : 55296 ≤ hi) (hhi2 : hi ≤ 56319) (hlo1 : 56320 ≤ lo) (hlo2 : lo ≤ 57343) :
    scanStrRest (f + 1) (92 :: 117 :: (hex4 hi ++ (92 :: 117 :: (hex4 lo ++ tail))))
      = (scanStrRest f tail).map
          (fun pr => ((65536 + (hi - 55296) * 1024 + (lo - 56320)) :: pr.1, pr.2)) := by
  have hh := scanHex4_hex4 hi (92 :: 117 :: (hex4 lo ++ tail)) (by omega)
  have hl := scanHex4_hex4 lo tail (by omega)
  simp [scanStrRest, hh, hl, hhi1, hhi2, hlo1, hlo2]

theorem scanStrRest_step (c : Nat) (tail : List Nat) (f : Nat)
    (hwfc : scalarCode c = true) :
    scanStrRest (f + 1) (escCode c ++ tail)
      = (scanStrRest f tail).map (fun pr => (c :: pr.1, pr.2)) := by
  have hscalar : c < 55296 ∨ (57344 ≤ c ∧ c < 1114112) := by
    simp only [scalarCode, Bool.or_eq_true, Bool.and_eq_true, decide_eq_true_eq] at hwfc
    omega
  by_cases hc34 : c = 34
  · subst hc34
    simp [escCode, scanStrRest, escDecode]
  · by_cases hc92 : c = 92
    · subst hc92
      simp [escCode, scanStrRest, escDecode]
    · by_cases hc8 : c = 8
      · subst hc8
        simp [escCode, scanStrRest, escDecode]
      · by_cases hc9 : c = 9
        · subst hc9
          simp [escCode, scanStrRest, escDecode]
        · by_cases hc10 : c = 10
          · subst hc10
            simp [escCode, scanStrRest, escDecode]
          · by_cases hc12 : c = 12
            · subst hc12
              simp [escCode, scanStrRest, escDecode]
            · by_cases hc13 : c = 13
              · subst hc13
                simp [escCode, scanStrRest, escDecode]
              · by_cases hlt32 : c < 32
                · have hesc : escCode c = 92 :: 117 :: hex4 c := by
                    simp [escCode, hc34, hc92, hc8, hc9, hc10, hc12, hc13, hlt32]
                  rw [hesc]
                  simp only [List.cons_append, List.append_assoc]
                  have hhex : scanHex4 (hex4 c ++ tail) = some (c, tail) :=
                    scanHex4_hex4 c _ (by omega)
                  have hsur : (55296 ≤ c && c ≤ 56319) = false := by
                    simp
                    omega
                  simp [scanStrRest, hhex, hsur]
                · by_cases hle126 : c ≤ 126
                  · have hesc : escCode c = [c] := by
                      simp [escCode, hc34, hc92, hc8, hc9, hc10, hc12, hc13, hlt32, hle126]
                    rw [hesc]
                    simp only [List.cons_append, List.nil_append]
                    simp [scanStrRest, hc34, hc92, hlt32]
                  · by_cases hlt65536 : c < 65536
                    · have hesc : escCode c = 92 :: 117 :: hex4 c := by
                        simp [escCode, hc34, hc92, hc8, hc9, hc10, hc12, hc13, hlt32,
                          hle126, hlt65536]
                      rw [hesc]
                      simp only [List.cons_append, List.append_assoc]
                      have hhex : scanHex4 (hex4 c ++ tail) = some (c, tail) :=
                        scanHex4_hex4 c _ (by omega)
                      have hsur : (55296 ≤ c && c ≤ 56319) = false := by
                        simp
                        omega
                      simp [scanStrRest, hhex, hsur]
                    · have hesc : escCode c = 92 :: 117 ::
                          (hex4 (55296 + (c - 65536) / 1024)
                            ++ 92 :: 117 :: hex4 (56320 + (c - 65536) % 1024)) := by
                        simp [escCode, hc34, hc92, hc8, hc9, hc10, hc12, hc13, hlt32,
                          hle126, hlt65536]
                      rw [hesc]
                      simp only [List.cons_append, List.append_assoc]
                      rw [scanStrRest_surrogate (55296 + (c - 65536) / 1024)
                        (56320 + (c - 65536) % 1024) tail f
                        (by omega) (by omega) (by omega) (by omega)]
                      have hv : 65536 + (55296 + (c - 65536) / 1024 - 55296) * 1024
                          + (56320 + (c - 65536) % 1024 - 56320) = c := by omega
                      rw [hv]

theorem scanStr_dump (s : List Nat) (hwf : wfStr s = true) :
    ∀ rest fuel, s.length + 1 ≤ fuel →
    scanStrRest fuel (escAll s ++ 34 :: rest) = some (s, rest) := by
  induction s with
  | nil =>
    intro rest fuel hf
    cases fuel with
    | zero => omega
    | succ f => simp [escAll, scanStrRest]
  | cons c s ih =>
    intro rest fuel hf
    have hwfc : scalarCode c = true := by
      simp only [wfStr, List.all_cons, Bool.and_eq_true] at hwf
      exact hwf.1
    have hwfs : wfStr s = true := by
      simp only [wfStr, List.all_cons, Bool.and_eq_true] at hwf
      exact hwf.2
    cases fuel with
    | zero => simp at hf
    | succ f =>
    have hf2 : s.length + 1 ≤ f := by
      simp only [List.length_cons] at hf
      omega
    have ihr := ih hwfs rest f hf2
    rw [escAll_cons, List.append_assoc, scanStrRest_step c _ f hwfc, ihr]
    rfl

theorem dumpHead (v : JVal) :
    ∃ c t, dumpVal v = c :: t ∧ isJsonWs c = false ∧ ¬ c = 93 ∧ ¬ c = 125 ∧ ¬ c = 44 := by
  cases v with
  | null => exact ⟨110, _, rfl, by decide, by decide, by decide, by decide⟩
  | bool b =>
    cases b with
    | true => exact ⟨116, _, rfl, by decide, by decide, by decide, by decide⟩
    | false => exact ⟨102, _, rfl, by decide, by decide, by decide, by decide⟩
  | num n =>
    by_cases hn : n < 0
    · refine ⟨45, natDigs n.natAbs, ?_, by decide, by decide, by decide, by decide⟩
      simp [dumpVal, intToStr, hn]
    · obtain ⟨c, t, he, h48, h57, _⟩ := natDigs_head n.toNat
      refine ⟨c, t, ?_, ?_, by omega, by omega, by omega⟩
      · simp [dumpVal, intToStr, hn, he]
      · simp [isJsonWs]
        omega
  | str s => exact ⟨34, _, rfl, by decide, by decide, by decide, by decide⟩
  | arr items => exact ⟨91, _, rfl, by decide, by decide, by decide, by decide⟩
  | obj items => exact ⟨123, _, rfl, by decide, by decide, by decide, by decide⟩

theorem objAppend_nil : ∀ a : JObj, objAppend a .nil = a
  | .nil => rfl
  | .cons k v rest => by simp [objAppend, objAppend_nil rest]

theorem objHasKey_objAppend : ∀ (a b : JObj) (k : List Nat),
    objHasKey (objAppend a b) k = (objHasKey a k || objHasKey b k)
  | .nil, b, k => by simp [objAppend, objHasKey]
  | .cons k0 v0 rest, b, k => by
    simp [objAppend, objHasKey, objHasKey_objAppend rest b k, Bool.or_assoc]

theorem objSet_fresh : ∀ (o : JObj) (k : List Nat) (v : JVal),
    objHasKey o k = false → objSet o k v = objAppend o (.cons k v .nil)
  | .nil, k, v, _ => rfl
  | .cons k0 v0 rest, k, v, h => by
    simp only [objHasKey, Bool.or_eq_false_iff] at h
    have hk : ¬ k0 = k := by
      intro he
      rw [he] at h
      simp at h
    simp [objSet, objAppend, hk, objSet_fresh rest k v h.2]

theorem objAppend_assoc : ∀ (a b c : JObj),
    objAppend (objAppend a b) c = objAppend a (objAppend b c)
  | .nil, b, c => rfl
  | .cons k v rest, b, c => by simp [objAppend, objAppend_assoc rest b c]

theorem foldl_objSet_pairList : ∀ (items : JObj) (acc : JObj), wfO items = true →
    (∀ k, objHasKey items k = true → objHasKey acc k = false) →
    List.foldl (fun o kv => objSet o kv.1 kv.2) acc (pairList items)
      = objAppend acc items
  | .nil, acc, _, _ => by simp [pairList, objAppend_nil]
  | .cons k v rest, acc, hwf, hfresh => by
    simp only [wfO, Bool.and_eq_true, Bool.not_eq_true'] at hwf
    obtain ⟨⟨⟨hk, hdup⟩, hv⟩, hrest⟩ := hwf
    have hknew : objHasKey acc k = false := by
      apply hfresh
      simp [objHasKey]
    simp only [pairList, List.foldl_cons]
    rw [objSet_fresh acc k v hknew]
    rw [foldl_objSet_pairList rest (objAppend acc (.cons k v .nil)) hrest ?_]
    · rw [objAppend_assoc]
      rfl
    · intro k2 hk2
      rw [objHasKey_objAppend]
      have h1 : objHasKey acc k2 = false := by
        apply hfresh
        simp [objHasKey, hk2]
      have h2 : objHasKey (JObj.cons k v .nil) k2 = false := by
        simp only [objHasKey, Bool.or_eq_false_iff]
        refine ⟨?_, by simp [objHasKey]⟩
        by_cases he : k = k2
        · rw [he] at hdup
          rw [hdup] at hk2
          simp at hk2
        · simp [he]
      rw [h1, h2]
      rfl

theorem pairsToObj_pairList (items : JObj) (hwf : wfO items = true) :
    pairsToObj (pairList items) = items := by
  rw [pairsToObj, foldl_objSet_pairList items .nil hwf (fun k _ => rfl)]
  rfl

theorem scanValue_null (f : Nat) (rest : List Nat) :
    scanValue (f + 1) (dumpVal .null ++ rest) = some (.null, rest) := by
  have hd : dumpVal JVal.null = [110, 117, 108, 108] := rfl
  have hu : s2c "ull" = [117, 108, 108] := rfl
  rw [hd]
  simp [scanValue, skipWs, isJsonWs, dropPre, hu]

theorem scanValue_true (f : Nat) (rest : List Nat) :
    scanValue (f + 1) (dumpVal (.bool true) ++ rest) = some (.bool true, rest) := by
  have hd : dumpVal (JVal.bool true) = [116, 114, 117, 101] := rfl
  have hu : s2c "rue" = [114, 117, 101] := rfl
  rw [hd]
  simp [scanValue, skipWs, isJsonWs, dropPre, hu]

theorem scanValue_false (f : Nat) (rest : List Nat) :
    scanValue (f + 1) (dumpVal (.bool false) ++ rest) = some (.bool false, rest) := by
  have hd : dumpVal (JVal.bool false) = [102, 97, 108, 115, 101] := rfl
  have hu : s2c "alse" = [97, 108, 115, 101] := rfl
  rw [hd]
  simp [scanValue, skipWs, isJsonWs, dropPre, hu]

theorem scanValue_num (n : Int) (f : Nat) (rest : List Nat) (ht : tailOk rest = true) :
    scanValue (f + 1) (dumpVal (.num n) ++ rest) = some (.num n, rest) := by
  have hd : dumpVal (JVal.num n) = intToStr n := rfl
  rw [hd]
  by_cases hn : n < 0
  · have he : intToStr n = 45 :: natDigs n.natAbs := by
      simp [intToStr, hn]
    rw [he]
    simp only [List.cons_append]
    simp only [scanValue, skipWs, isJsonWs]
    norm_num
    rw [← List.cons_append, ← he]
    exact scanNumber_intToStr n rest ht
  · obtain ⟨c, t, he0, h48, h57, _⟩ := natDigs_head n.toNat
    have he : intToStr n = c :: t := by
      simp [intToStr, hn, he0]
    rw [he]
    simp only [List.cons_append]
    have hws : isJsonWs c = false := by
      simp [isJsonWs]
      omega
    have hsw : skipWs (c :: (t ++ rest)) = c :: (t ++ rest) := skipWs_notWs _ _ hws
    simp only [scanValue, hsw]
    have h1 : ¬ c = 123 := by omega
    have h2 : ¬ c = 91 := by omega
    have h3 : ¬ c = 34 := by omega
    have h4 : ¬ c = 110 := by omega
    have h5 : ¬ c = 116 := by omega
    have h6 : ¬ c = 102 := by omega
    simp only [h1, h2, h3, h4, h5, h6, if_false, ite_false]
    rw [← List.cons_append, ← he]
    exact scanNumber_intToStr n rest ht

theorem scanValue_str (s : List Nat) (f : Nat) (rest : List Nat) (hwf : wfStr s = true)
    (hb : s.length + 1 ≤ f) :
    scanValue (f + 1) (dumpVal (.str s) ++ rest) = some (.str s, rest) := by
  have hd : dumpVal (JVal.str s) = 34 :: (escAll s ++ [34]) := rfl
  rw [hd]
  simp only [List.cons_append, List.append_assoc, List.singleton_append]
  have hsr := scanStr_dump s hwf rest f hb
  simp [scanValue, skipWs, isJsonWs, hsr]

theorem scanValue_arrNil (f : Nat) (rest : List Nat) :
    scanValue (f + 1) (dumpVal (.arr .nil) ++ rest) = some (.arr .nil, rest) := by
  have hd : dumpVal (JVal.arr .nil) = [91, 93] := rfl
  rw [hd]
  simp [scanValue, skipWs, isJsonWs]

theorem scanValue_objNil (f : Nat) (rest : List Nat) :
    scanValue (f + 1) (dumpVal (.obj .nil) ++ rest) = some (.obj .nil, rest) := by
  have hd : dumpVal (JVal.obj .nil) = [123, 125] := rfl
  rw [hd]
  simp [scanValue, skipWs, isJsonWs]

theorem dumpArrItems_head (w : JVal) (items : JArr) :
    ∃ c t, dumpArrItems (.cons w items) = c :: t ∧ isJsonWs c = false ∧ ¬ c = 93 := by
  obtain ⟨c, t0, he, hws, h93, _, _⟩ := dumpHead w
  cases items with
  | nil => exact ⟨c, t0, by simp [dumpArrItems, he], hws, h93⟩
  | cons w2 items2 =>
    exact ⟨c, t0 ++ 44 :: dumpArrItems (.cons w2 items2),
      by simp [dumpArrItems, he], hws, h93⟩

theorem dumpObjItems_head (k : List Nat) (v : JVal) (items : JObj) :
    ∃ t, dumpObjItems (.cons k v items) = 34 :: t := by
  cases items with
  | nil => exact ⟨escAll k ++ [34] ++ 58 :: dumpVal v, by simp [dumpObjItems, dumpStr]⟩
  | cons k2 v2 items2 =>
    exact ⟨escAll k ++ [34] ++ 58 :: (dumpVal v
        ++ 44 :: dumpObjItems (.cons k2 v2 items2)),
      by simp [dumpObjItems, dumpStr]⟩

theorem scanValue_arrCons (w : JVal) (items : JArr) (f : Nat) (rest : List Nat)
    (hsub : scanArrItems f (dumpArrItems (.cons w items) ++ 93 :: rest)
      = some (.cons w items, rest)) :
    scanValue (f + 1) (dumpVal (.arr (.cons w items)) ++ rest)
      = some (.arr (.cons w items), rest) := by
  have hd : dumpVal (JVal.arr (.cons w items))
      = 91 :: (dumpArrItems (.cons w items) ++ [93]) := rfl
  rw [hd]
  simp only [List.cons_append, List.append_assoc, List.singleton_append]
  obtain ⟨c1, t2, heA, hws1, h93⟩ := dumpArrItems_head w items
  rw [heA]
  simp only [List.cons_append]
  have hsw1 : skipWs (c1 :: (t2 ++ 93 :: rest)) = c1 :: (t2 ++ 93 :: rest) :=
    skipWs_notWs _ _ hws1
  simp only [scanValue, skipWs, isJsonWs]
  norm_num
  rw [hsw1]
  simp only [h93, if_false, ite_false]
  rw [← List.cons_append, ← heA, hsub]
  rfl

theorem scanValue_objCons (k : List Nat) (v : JVal) (items : JObj) (f : Nat)
    (rest : List Nat)
    (hsub : scanObjItems f (dumpObjItems (.cons k v items) ++ 125 :: rest)
      = some (pairList (.cons k v items), rest)) :
    scanValue (f + 1) (dumpVal (.obj (.cons k v items)) ++ rest)
      = some (.obj (pairsToObj (pairList (.cons k v items))), rest) := by
  have hd : dumpVal (JVal.obj (.cons k v items))
      = 123 :: (dumpObjItems (.cons k v items) ++ [125]) := rfl
  rw [hd]
  simp only [List.cons_append, List.append_assoc, List.singleton_append]
  obtain ⟨t2, heO⟩ := dumpObjItems_head k v items
  rw [heO]
  simp only [List.cons_append]
  have hsw : skipWs (34 :: (t2 ++ 125 :: rest)) = 34 :: (t2 ++ 125 :: rest) :=
    skipWs_notWs _ _ (by decide)
  simp only [scanValue, skipWs, isJsonWs]
  norm_num
  rw [hsw]
  norm_num
  rw [← List.cons_append, ← heO, hsub]
  exact ⟨pairList (.cons k v items), rfl, rfl⟩

theorem scanArr_stepNil (v : JVal) (f : Nat) (rest : List Nat)
    (hv : scanValue f (dumpVal v ++ 93 :: rest) = some (v, 93 :: rest)) :
    scanArrItems (f + 1) (dumpArrItems (.cons v .nil) ++ 93 :: rest)
      = some (.cons v .nil, rest) := by
  have hd : dumpArrItems (JArr.cons v .nil) = dumpVal v := rfl
  rw [hd]
  simp [scanArrItems, hv, skipWs, isJsonWs]

theorem scanArr_stepCons (v w : JVal) (items : JArr) (f : Nat) (rest : List Nat)
    (hv : scanValue f (dumpVal v ++ 44 :: (dumpArrItems (.cons w items) ++ 93 :: rest))
      = some (v, 44 :: (dumpArrItems (.cons w items) ++ 93 :: rest)))
    (hrest : scanArrItems f (dumpArrItems (.cons w items) ++ 93 :: rest)
      = some (.cons w items, rest)) :
    scanArrItems (f + 1) (dumpArrItems (.cons v (.cons w items)) ++ 93 :: rest)
      = some (.cons v (.cons w items), rest) := by
  have hd : dumpArrItems (JArr.cons v (.cons w items))
      = dumpVal v ++ 44 :: dumpArrItems (.cons w items) := rfl
  rw [hd]
  simp only [List.cons_append, List.append_assoc]
  simp [scanArrItems, hv, hrest, skipWs, isJsonWs]

theorem scanObj_stepNil (k : List Nat) (v : JVal) (f : Nat) (rest : List Nat)
    (hk : scanStrRest f (escAll k ++ 34 :: (58 :: (dumpVal v ++ 125 :: rest)))
      = some (k, 58 :: (dumpVal v ++ 125 :: rest)))
    (hv : scanValue f (dumpVal v ++ 125 :: rest) = some (v, 125 :: rest)) :
    scanObjItems (f + 1) (dumpObjItems (.cons k v .nil) ++ 125 :: rest)
      = some ([(k, v)], rest) := by
  have hd : dumpObjItems (JObj.cons k v .nil)
      = (34 :: (escAll k ++ [34])) ++ 58 :: dumpVal v := rfl
  rw [hd]
  simp only [List.cons_append, List.append_assoc, List.singleton_append, List.nil_append]
  simp [scanObjItems, hk, hv, skipWs, isJsonWs]

theorem scanObj_stepCons (k : List Nat) (v : JVal) (k2 : List Nat) (v2 : JVal)
    (items : JObj) (f : Nat) (rest : List Nat)
    (hk : scanStrRest f (escAll k ++ 34 :: (58 :: (dumpVal v
        ++ 44 :: (dumpObjItems (.cons k2 v2 items) ++ 125 :: rest))))
      = some (k, 58 :: (dumpVal v ++ 44 :: (dumpObjItems (.cons k2 v2 items)
          ++ 125 :: rest))))
    (hv : scanValue f (dumpVal v ++ 44 :: (dumpObjItems (.cons k2 v2 items)
        ++ 125 :: rest))
      = some (v, 44 :: (dumpObjItems (.cons k2 v2 items) ++ 125 :: rest)))
    (hrest : scanObjItems f (dumpObjItems (.cons k2 v2 items) ++ 125 :: rest)
      = some (pairList (.cons k2 v2 items), rest)) :
    scanObjItems (f + 1) (dumpObjItems (.cons k v (.cons k2 v2 items)) ++ 125 :: rest)
      = some ((k, v) :: pairList (.cons k2 v2 items), rest) := by
  have hd : dumpObjItems (JObj.cons k v (.cons k2 v2 items))
      = (34 :: (escAll k ++ [34])) ++ 58 :: (dumpVal v
          ++ 44 :: dumpObjItems (.cons k2 v2 items)) := rfl
  rw [hd]
  simp only [List.cons_append, List.append_assoc, List.singleton_append, List.nil_append]
  simp [scanObjItems, hk, hv, hrest, skipWs, isJsonWs]

theorem escCode_len (c : Nat) : 1 ≤ (escCode c).length := by
  rw [escCode]
  repeat' split
  all_goals simp [hex4]

theorem escAll_len (s : List Nat) : s.length ≤ (escAll s).length := by
  induction s with
  | nil => simp [escAll]
  | cons c t ih =>
    rw [escAll_cons]
    have := escCode_len c
    simp only [List.length_append, List.length_cons]
    omega

theorem fuelV_pos : ∀ v : JVal, 1 ≤ fuelV v := by
  intro v
  cases v <;> simp only [fuelV] <;> omega

mutual
theorem fuelV_le : ∀ v : JVal, fuelV v ≤ 2 * (dumpVal v).length + 1
  | .null => by
    simp only [fuelV, dumpVal]
    omega
  | .bool b => by
    cases b <;> simp only [fuelV, dumpVal] <;> omega
  | .num n => by
    simp only [fuelV]
    omega
  | .str s => by
    have := escAll_len s
    simp only [fuelV, dumpVal, dumpStr, List.length_cons, List.length_append,
      List.length_singleton]
    omega
  | .arr items => by
    have := fuelA_le items
    simp only [fuelV, dumpVal, List.length_cons, List.length_append,
      List.length_singleton]
    omega
  | .obj items => by
    have := fuelO_le items
    simp only [fuelV, dumpVal, List.length_cons, List.length_append,
      List.length_singleton]
    omega
theorem fuelA_le : ∀ items : JArr, fuelA items ≤ 2 * (dumpArrItems items).length + 2
  | .nil => by
    simp only [fuelA]
    omega
  | .cons v .nil => by
    have := fuelV_le v
    simp only [fuelA, dumpArrItems]
    omega
  | .cons v (.cons w rest) => by
    have h1 := fuelV_le v
    have h2 := fuelA_le (.cons w rest)
    simp only [fuelA] at h2
    simp only [fuelA, dumpArrItems, List.length_append, List.length_cons]
    omega
theorem fuelO_le : ∀ items : JObj, fuelO items ≤ 2 * (dumpObjItems items).length + 2
  | .nil => by
    simp only [fuelO]
    omega
  | .cons k v .nil => by
    have h1 := fuelV_le v
    have h2 := escAll_len k
    simp only [fuelO, dumpObjItems, dumpStr, List.length_append, List.length_cons,
      List.length_singleton]
    omega
  | .cons k v (.cons k2 v2 rest) => by
    have h1 := fuelV_le v
    have h2 := escAll_len k
    have h3 := fuelO_le (.cons k2 v2 rest)
    simp only [fuelO] at h3
    simp only [fuelO, dumpObjItems, dumpStr, List.length_append, List.length_cons,
      List.length_singleton]
    omega
end

theorem roundTripAux : ∀ fuel : Nat,
    (∀ (v : JVal) (rest : List Nat), wfV v = true → tailOk rest = true →
      fuelV v ≤ fuel → scanValue fuel (dumpVal v ++ rest) = some (v, rest)) ∧
    (∀ (v : JVal) (items : JArr) (rest : List Nat), wfV v = true → wfA items = true →
      fuelA (.cons v items) ≤ fuel →
      scanArrItems fuel (dumpArrItems (.cons v items) ++ 93 :: rest)
        = some (.cons v items, rest)) ∧
    (∀ (k : List Nat) (v : JVal) (items : JObj) (rest : List Nat),
      wfStr k = true → wfV v = true → wfO items = true →
      fuelO (.cons k v items) ≤ fuel →
      scanObjItems fuel (dumpObjItems (.cons k v items) ++ 125 :: rest)
        = some (pairList (.cons k v items), rest)) := by
  intro fuel
  induction fuel with
  | zero =>
    refine ⟨?_, ?_, ?_⟩
    · intro v rest _ _ hf
      have := fuelV_pos v
      omega
    · intro v items rest _ _ hf
      simp only [fuelA] at hf
      have := fuelV_pos v
      omega
    · intro k v items rest _ _ _ hf
      simp only [fuelO] at hf
      omega
  | succ f ih =>
    obtain ⟨ihV, ihA, ihO⟩ := ih
    refine ⟨?_, ?_, ?_⟩
    · intro v rest hwf htail hf
      cases v with
      | null => exact scanValue_null f rest
      | bool b =>
        cases b with
        | true => exact scanValue_true f rest
        | false => exact scanValue_false f rest
      | num n => exact scanValue_num n f rest htail
      | str s =>
        have hb : s.length + 1 ≤ f := by
          simp only [fuelV] at hf
          omega
        exact scanValue_str s f rest hwf hb
      | arr items =>
        cases items with
        | nil => exact scanValue_arrNil f rest
        | cons w items2 =>
          have hwfa : wfV w = true ∧ wfA items2 = true := by
            simp only [wfV, wfA, Bool.and_eq_true] at hwf
            exact hwf
          have hfa : fuelA (.cons w items2) ≤ f := by
            simp only [fuelV] at hf
            omega
          exact scanValue_arrCons w items2 f rest
            (ihA w items2 rest hwfa.1 hwfa.2 hfa)
      | obj items =>
        cases items with
        | nil => exact scanValue_objNil f rest
        | cons k w items2 =>
          have hwfo2 : wfO (.cons k w items2) = true := by
            simpa only [wfV] using hwf
          have hparts : wfStr k = true ∧ wfV w = true ∧ wfO items2 = true := by
            simp only [wfO, Bool.and_eq_true] at hwfo2
            exact ⟨hwfo2.1.1.1, hwfo2.1.2, hwfo2.2⟩
          have hfo : fuelO (.cons k w items2) ≤ f := by
            simp only [fuelV] at hf
            omega
          have h1 := scanValue_objCons k w items2 f rest
            (ihO k w items2 rest hparts.1 hparts.2.1 hparts.2.2 hfo)
          rw [pairsToObj_pairList _ hwfo2] at h1
          exact h1
    · intro v items rest hwfv hwfa hf
      cases items with
      | nil =>
        have hfv : fuelV v ≤ f := by
          simp only [fuelA] at hf
          omega
        exact scanArr_stepNil v f rest (ihV v (93 :: rest) hwfv rfl hfv)
      | cons w items2 =>
        have hw : wfV w = true ∧ wfA items2 = true := by
          simp only [wfA, Bool.and_eq_true] at hwfa
          exact hwfa
        have hfv : fuelV v ≤ f := by
          simp only [fuelA] at hf
          omega
        have hfa : fuelA (.cons w items2) ≤ f := by
          simp only [fuelA] at hf ⊢
          omega
        exact scanArr_stepCons v w items2 f rest
          (ihV v (44 :: (dumpArrItems (.cons w items2) ++ 93 :: rest)) hwfv rfl hfv)
          (ihA w items2 rest hw.1 hw.2 hfa)
    · intro k v items rest hwfk hwfv hwfo hf
      cases items with
      | nil =>
        have hfk : k.length + 1 ≤ f := by
          simp only [fuelO] at hf
          have := fuelV_pos v
          omega
        have hfv : fuelV v ≤ f := by
          simp only [fuelO] at hf
          omega
        exact scanObj_stepNil k v f rest
          (scanStr_dump k hwfk (58 :: (dumpVal v ++ 125 :: rest)) f hfk)
          (ihV v (125 :: rest) hwfv rfl hfv)
      | cons k2 v2 items2 =>
        have hparts : wfStr k2 = true ∧ wfV v2 = true ∧ wfO items2 = true := by
          simp only [wfO, Bool.and_eq_true] at hwfo
          exact ⟨hwfo.1.1.1, hwfo.1.2, hwfo.2⟩
        have hfk : k.length + 1 ≤ f := by
          simp only [fuelO] at hf
          have := fuelV_pos v
          omega
        have hfv : fuelV v ≤ f := by
          simp only [fuelO] at hf
          omega
        have hfo : fuelO (.cons k2 v2 items2) ≤ f := by
          simp only [fuelO] at hf ⊢
          have := fuelV_pos v
          omega
        exact scanObj_stepCons k v k2 v2 items2 f rest
          (scanStr_dump k hwfk (58 :: (dumpVal v
            ++ 44 :: (dumpObjItems (.cons k2 v2 items2) ++ 125 :: rest))) f hfk)
          (ihV v (44 :: (dumpObjItems (.cons k2 v2 items2) ++ 125 :: rest)) hwfv rfl hfv)
          (ihO k2 v2 items2 rest hparts.1 hparts.2.1 hparts.2.2 hfo)

theorem json_loads_dumpVal (v : JVal) (hwf : wfV v = true) :
    json_loads (dumpVal v) = some v := by
  rw [json_loads]
  have hb : fuelV v ≤ 2 * (dumpVal v).length + 2 := by
    have := fuelV_le v
    omega
  have h := (roundTripAux (2 * (dumpVal v).length + 2)).1 v [] hwf rfl hb
  rw [List.append_nil] at h
  rw [h]
  rfl

/-- C9: the stream fields built by `enqueue_task` for a well-formed payload
dict with the default retry count 0 and empty source id decode through
`parse_stream_message` back to exactly that payload, retry count 0 and empty
source id.  Well-formedness asks only that strings hold Unicode scalar values
and object keys are duplicate-free, which every Python dict payload
satisfies. -/
theorem enqueue_parse_roundtrip (p : JObj) (hwf : wfO p = true) :
    parse_stream_message (enqueue_fields p 0 []) = (p, 0, []) := by
  have hpr : ¬ s2c "payload" = s2c "retry_count" := by decide
  have hps : ¬ s2c "payload" = s2c "source_message_id" := by decide
  have hrs : ¬ s2c "retry_count" = s2c "source_message_id" := by decide
  have hget1 : pyDictGet (enqueue_fields p 0 []) (s2c "payload")
      = some (dumpVal (.obj p)) := by
    simp [enqueue_fields, pyDictGet]
  have hget2 : pyDictGet (enqueue_fields p 0 []) (s2c "retry_count")
      = some (intToStr (max 0 0)) := by
    simp [enqueue_fields, pyDictGet, hpr]
  have hget3 : pyDictGet (enqueue_fields p 0 []) (s2c "source_message_id")
      = some [] := by
    simp [enqueue_fields, pyDictGet, hps, hrs]
  have hne2 : ¬ dumpVal (.obj p) = [] := by
    rw [show dumpVal (.obj p) = 123 :: (dumpObjItems p ++ [125]) from rfl]
    simp
  have hmax : intToStr (max (0 : Int) 0) = [48] := rfl
  have hloads : json_loads_dict (dumpVal (.obj p)) = p := by
    rw [json_loads_dict, json_loads_dumpVal (.obj p) (by simpa [wfV] using hwf)]
  simp only [parse_stream_message, hget1, hget2, hget3, hmax, orDefault, hne2,
    if_false, ite_false]
  rw [hloads]
  norm_num
  rfl

/-- A concrete well-formed payload used to exercise the round trip. -/
def pDemo : JObj := .cons (s2c "event") (.str (s2c "x")) .nil

theorem enqueue_parse_roundtrip_witness :
    wfO pDemo = true ∧ parse_stream_message (enqueue_fields pDemo 0 []) = (pDemo, 0, []) :=
  ⟨by decide, enqueue_parse_roundtrip pDemo (by decide)⟩
